import Mathlib

/-!
Verification development for the FogLAMP configuration manager
(`python/foglamp/common/configuration_manager.py`) and task scheduler
(`src/python/foglamp/core/scheduler.py`).

The Python code is shallowly embedded: Python values flowing through the
configuration manager (strings, lists of strings, `None`, and string-keyed
dicts) are modelled by the inductive `EVal`; dicts are ordered association
lists, matching CPython's insertion-ordered dicts.  Stateful methods become
functions from an explicit state to a result, a new state and a list of
observable effects (storage writes, audit records, callback invocations).
The storage service is modelled as in-memory tables; storage reads are pure
and storage failures are out of scope (the `StorageServerError` branches of
the source are unreachable in the model).
-/

namespace FogLAMP

/-- Model of the Python values handled by the configuration manager:
strings, lists of strings (`options` entries), `None`, and string-keyed
dicts represented as insertion-ordered association lists. -/
inductive EVal where
  | str (s : String)
  | strList (l : List String)
  | pyNone
  | dict (d : List (String × EVal))

mutual

/-- Structural equality on `EVal` (dict entry order matters). -/
def EVal.beq : EVal → EVal → Bool
  | .str a, .str b => a == b
  | .strList a, .strList b => a == b
  | .pyNone, .pyNone => true
  | .dict a, .dict b => EVal.beqEntries a b
  | _, _ => false

/-- Structural equality on dict entry lists. -/
def EVal.beqEntries : List (String × EVal) → List (String × EVal) → Bool
  | [], [] => true
  | (k, v) :: t, (k2, v2) :: t2 => k == k2 && EVal.beq v v2 && EVal.beqEntries t t2
  | _, _ => false

end

mutual

theorem EVal.beq_refl : (v : EVal) → EVal.beq v v = true
  | .str s => by simp [EVal.beq]
  | .strList l => by simp [EVal.beq]
  | .pyNone => by simp [EVal.beq]
  | .dict d => by simp [EVal.beq]; exact EVal.beqEntries_refl d

theorem EVal.beqEntries_refl : (l : List (String × EVal)) → EVal.beqEntries l l = true
  | [] => by simp [EVal.beqEntries]
  | (k, v) :: t => by
      simp [EVal.beqEntries]
      exact ⟨EVal.beq_refl v, EVal.beqEntries_refl t⟩

end

mutual

theorem EVal.beq_eq : (a b : EVal) → EVal.beq a b = true → a = b
  | .str a, .str b => by simp [EVal.beq]
  | .str _, .strList _ | .str _, .pyNone | .str _, .dict _ => by simp [EVal.beq]
  | .strList a, .strList b => by simp [EVal.beq]
  | .strList _, .str _ | .strList _, .pyNone | .strList _, .dict _ => by simp [EVal.beq]
  | .pyNone, .pyNone => by simp
  | .pyNone, .str _ | .pyNone, .strList _ | .pyNone, .dict _ => by simp [EVal.beq]
  | .dict a, .dict b => by
      simp [EVal.beq]
      intro h
      have := EVal.beqEntries_eq a b h
      simp [this]
  | .dict _, .str _ | .dict _, .strList _ | .dict _, .pyNone => by simp [EVal.beq]

theorem EVal.beqEntries_eq :
    (a b : List (String × EVal)) → EVal.beqEntries a b = true → a = b
  | [], [] => by simp
  | [], _ :: _ => by simp [EVal.beqEntries]
  | _ :: _, [] => by simp [EVal.beqEntries]
  | (k, v) :: t, (k2, v2) :: t2 => by
      simp [EVal.beqEntries]
      intro hk hv ht
      exact ⟨⟨hk, EVal.beq_eq v v2 hv⟩, EVal.beqEntries_eq t t2 ht⟩

end

instance : DecidableEq EVal := fun a b =>
  if h : EVal.beq a b = true then isTrue (EVal.beq_eq a b h)
  else isFalse (fun he => h (he ▸ EVal.beq_refl a))

instance : BEq EVal := ⟨EVal.beq⟩

/-- Read a key of a Python dict (association-list lookup, first match). -/
def alookup {α : Type} (k : String) : List (String × α) → Option α
  | [] => none
  | (k2, v) :: t => if k2 = k then some v else alookup k t

/-- Python dict assignment `d[k] = v`: replace the value of an existing key
in place, otherwise append the new key at the end. -/
def aset {α : Type} (k : String) (v : α) : List (String × α) → List (String × α)
  | [] => [(k, v)]
  | (k2, v2) :: t => if k2 = k then (k, v) :: t else (k2, v2) :: aset k v t

/-- Python `dict.pop(k)`: remove the entry for `k` (first match). -/
def aremove {α : Type} (k : String) : List (String × α) → List (String × α)
  | [] => []
  | (k2, v2) :: t => if k2 = k then t else (k2, v2) :: aremove k t

mutual

/-- Model of Python `==` between configuration values: dict comparison is
order-insensitive (equal key sets with `==`-equal values), everything else
is structural. -/
def pyEq : EVal → EVal → Bool
  | .str a, .str b => a == b
  | .strList a, .strList b => a == b
  | .pyNone, .pyNone => true
  | .dict a, .dict b => a.length == b.length && pyEqEntries a b
  | _, _ => false

/-- Each entry of the first dict is present with a `==`-equal value in the
second dict. -/
def pyEqEntries : List (String × EVal) → List (String × EVal) → Bool
  | [], _ => true
  | (k, v) :: rest, b =>
    (match alookup k b with
     | some w => pyEq v w
     | none => false) && pyEqEntries rest b

end

/-- Byte-wise lexicographic order on strings, used to model the key order
produced by `json.dumps(..., sort_keys=True)`. -/
def charListLe : List Char → List Char → Bool
  | [], _ => true
  | _ :: _, [] => false
  | a :: at2, b :: bt => if a = b then charListLe at2 bt else decide (a.toNat < b.toNat)

/-- Lexicographic string order as a Bool. -/
def pyStrLe (a b : String) : Bool := charListLe a.data b.data

/-- Insert an entry into a dict entry list sorted by key (used to model
`json.dumps(..., sort_keys=True)`). -/
def insertByKey (p : String × EVal) : List (String × EVal) → List (String × EVal)
  | [] => [p]
  | q :: t => if pyStrLe p.1 q.1 then p :: q :: t else q :: insertByKey p t

/-- Sort a dict entry list by key. -/
def sortByKey : List (String × EVal) → List (String × EVal)
  | [] => []
  | p :: t => insertByKey p (sortByKey t)

mutual

/-- Recursively sort all dict keys, modelling the canonical form produced by
`json.dumps(..., sort_keys=True)`. -/
def canonSorted : EVal → EVal
  | .str s => .str s
  | .strList l => .strList l
  | .pyNone => .pyNone
  | .dict d => .dict (sortByKey (canonEntries d))

/-- Apply `canonSorted` to every value of a dict entry list. -/
def canonEntries : List (String × EVal) → List (String × EVal)
  | [] => []
  | (k, v) :: t => (k, canonSorted v) :: canonEntries t

end

/-- Model of `json.dumps(a, sort_keys=True) == json.dumps(b, sort_keys=True)`:
equality of the recursively key-sorted forms. -/
def jsonSortedEq (a b : EVal) : Bool := canonSorted a == canonSorted b

theorem jsonSortedEq_refl (a : EVal) : jsonSortedEq a a = true := by
  simp [jsonSortedEq, BEq.beq]
  exact EVal.beq_refl _

/-! ### Small value parsers

Models of the Python conversions used by `_validate_type_value` and
`_clean`: `int(s)`, `float(s)`, `ipaddress.ip_address(s)`,
`urllib.parse.urlparse(s)` and `json.loads(s)`.  Floats are modelled as
exact decimals (`mant * 10 ^ exp`); binary rounding, `inf`/`nan` literals
and digit-separator underscores are outside the model. -/

/-- Whitespace as stripped by Python `str.strip()` (ASCII subset). -/
def isWsChar (c : Char) : Bool :=
  c = ' ' || c = '\t' || c = '\n' || c = '\r'

/-- Strip leading and trailing whitespace from a character list. -/
def trimWs (cs : List Char) : List Char :=
  ((cs.dropWhile isWsChar).reverse.dropWhile isWsChar).reverse

/-- Split a character list on a non-empty separator (model of
`str.split(sep)`). -/
def splitOnList (sep : List Char) : Nat → List Char → List (List Char)
  | 0, cs => [cs]
  | fuel + 1, cs =>
    if sep ≠ [] ∧ sep.isPrefixOf cs then
      [] :: splitOnList sep fuel (cs.drop sep.length)
    else
      match cs with
      | [] => [[]]
      | c :: t =>
        match splitOnList sep fuel t with
        | [] => [[c]]
        | h :: r => (c :: h) :: r

/-- Split on a separator, with fuel derived from the input length. -/
def splitOn2 (sep : List Char) (cs : List Char) : List (List Char) :=
  splitOnList sep (cs.length + 1) cs

/-- Python `str.lower()` restricted to ASCII letters. -/
def lowerChar (c : Char) : Char :=
  if 'A' ≤ c ∧ c ≤ 'Z' then Char.ofNat (c.toNat + 32) else c

/-- Python `str.lower()` on a string (ASCII model). -/
def pyLower (s : String) : String := String.mk (s.data.map lowerChar)

/-- Split a character list into its leading run of decimal digits and the
rest. -/
def spanDigits : List Char → List Char × List Char
  | [] => ([], [])
  | c :: t =>
    if c.isDigit then
      let (d, r) := spanDigits t
      (c :: d, r)
    else ([], c :: t)

/-- Value of a list of decimal digit characters. -/
def digitsToNat : List Char → Nat
  | [] => 0
  | c :: t => digitsToNat t + (c.toNat - 48) * 10 ^ t.length

/-- Model of Python `int(s)` restricted to decimal literals: optional
surrounding whitespace, optional sign, one or more digits. -/
def pyParseInt (s : String) : Option Int :=
  let cs := trimWs s.data
  let (neg, cs) :=
    match cs with
    | '-' :: t => (true, t)
    | '+' :: t => (false, t)
    | _ => (false, cs)
  let (d, r) := spanDigits cs
  if d = [] ∨ r ≠ [] then none
  else some (if neg then -(digitsToNat d : Int) else (digitsToNat d : Int))

/-- An exact decimal number `mant * 10 ^ exp`, the model of a Python float
produced from a decimal literal. -/
structure Dec where
  mant : Int
  exp : Int
deriving DecidableEq

/-- Consume an optional leading sign, reporting whether it was `-`. -/
def parseSign (cs : List Char) : Bool × List Char :=
  match cs with
  | '-' :: t => (true, t)
  | '+' :: t => (false, t)
  | _ => (false, cs)

/-- Consume an optional fractional part `.digits`. -/
def parseFrac (cs : List Char) : List Char × List Char :=
  match cs with
  | '.' :: t => spanDigits t
  | _ => ([], cs)

/-- Model of Python `float(s)` for finite decimal literals:
`[ws][sign]digits[.digits][(e|E)[sign]digits][ws]` with at least one
mantissa digit. -/
def pyParseFloat (s : String) : Option Dec :=
  let cs := trimWs s.data
  let (neg, cs) := parseSign cs
  let (ip, cs) := spanDigits cs
  let (fp, cs) := parseFrac cs
  if ip = [] ∧ fp = [] then none
  else
    let mantNat := digitsToNat (ip ++ fp)
    let mant : Int := if neg then -(mantNat : Int) else (mantNat : Int)
    match cs with
    | [] => some ⟨mant, -(fp.length : Int)⟩
    | e :: t =>
      if e = 'e' ∨ e = 'E' then
        let (eneg, t) := parseSign t
        let (ed, t) := spanDigits t
        if ed = [] ∨ t ≠ [] then none
        else
          let ev : Int := if eneg then -(digitsToNat ed : Int) else (digitsToNat ed : Int)
          some ⟨mant, ev - (fp.length : Int)⟩
      else none

/-- Decimal digit characters of a natural number, most significant digit
first, with fuel (`natDigitsF` is structural so it evaluates by `rfl`). -/
def natDigitsF : Nat → Nat → List Char
  | 0, _ => []
  | fuel + 1, n =>
    if n < 10 then [Char.ofNat (48 + n)]
    else natDigitsF fuel (n / 10) ++ [Char.ofNat (48 + n % 10)]

/-- Decimal digit characters of a natural number (`natDigits 0 = ['0']`),
the model of Python `str(int)`. -/
def natDigits (n : Nat) : List Char := natDigitsF (n + 1) n

/-- Lay out a sign, significant digits and a decimal exponent positionally,
always with a decimal point. -/
def pyFloatReprCore (neg : Bool) (digits : List Char) (e : Int) : String :=
  let sign : List Char := if neg then ['-'] else []
  if 0 ≤ e then
    String.mk (sign ++ ((digits ++ List.replicate e.toNat '0') ++ '.' :: ['0']))
  else
    let n := (-e).toNat
    if n < digits.length then
      String.mk (sign ++ (digits.take (digits.length - n) ++
        '.' :: digits.drop (digits.length - n)))
    else
      String.mk (sign ++ (['0'] ++ '.' ::
        (List.replicate (n - digits.length) '0' ++ digits)))

/-- Model of Python `str(float(...))` on an exact decimal: strip trailing
zeros from the mantissa and print positionally, always with a decimal
point (`str(float("72"))` is `"72.0"`).  Python switches to scientific
notation for very large or small magnitudes; the positional form is used
for all magnitudes here. -/
def pyFloatRepr (d : Dec) : String :=
  if d.mant = 0 then "0.0"
  else
    let rev := (natDigits d.mant.natAbs).reverse
    let stripped := rev.dropWhile (· == '0')
    let zeros := rev.length - stripped.length
    pyFloatReprCore (d.mant < 0) stripped.reverse (d.exp + (zeros : Int))

/-- One dotted-quad octet: one to three digits, no superfluous leading
zero, value at most 255. -/
def ipv4Octet (cs : List Char) : Bool :=
  cs ≠ [] && cs.length ≤ 3 && cs.all (·.isDigit) &&
    (cs.length = 1 || cs.headD '0' ≠ '0') && digitsToNat cs ≤ 255

/-- Model of a textual IPv4 address as accepted by
`ipaddress.ip_address`. -/
def isIpv4Addr (s : String) : Bool :=
  match splitOn2 ['.'] s.data with
  | [a, b, c, d] => ipv4Octet a && ipv4Octet b && ipv4Octet c && ipv4Octet d
  | _ => false

/-- One IPv6 hextet: one to four hexadecimal digits. -/
def ipv6Group (cs : List Char) : Bool :=
  cs ≠ [] && cs.length ≤ 4 && cs.all (fun c => c.isDigit || ('a' ≤ c && c ≤ 'f') || ('A' ≤ c && c ≤ 'F'))

/-- Model of a textual IPv6 address as accepted by `ipaddress.ip_address`,
simplified: full eight-group form, or a single `::` gap with fewer than
eight groups (embedded-IPv4 forms are outside the model). -/
def isIpv6Addr (s : String) : Bool :=
  match splitOn2 [':', ':'] s.data with
  | [whole] =>
    let gs := splitOn2 [':'] whole
    gs.length = 8 && gs.all ipv6Group
  | [l, r] =>
    let lg := if l = [] then [] else splitOn2 [':'] l
    let rg := if r = [] then [] else splitOn2 [':'] r
    lg.length + rg.length < 8 && lg.all ipv6Group && rg.all ipv6Group
  | _ => false

/-- Model of `ipaddress.ip_address(s)`: the address string on success,
`none` when a `ValueError` would be raised. -/
def pyIpAddress (s : String) : Option String :=
  if isIpv4Addr s || isIpv6Addr s then some s else none

/-- Whether a character may appear in a URL scheme after the first
letter. -/
def schemeChar (c : Char) : Bool :=
  c.isAlphanum || c = '+' || c = '-' || c = '.'

/-- Model of the `urlparse` check used by the URL validator: a scheme
(letter followed by scheme characters) before a colon, and a non-empty
network location introduced by `//`. -/
def urlHasSchemeAndNetloc (s : String) : Bool :=
  let cs := s.data
  let scheme := cs.takeWhile (· ≠ ':')
  match cs.dropWhile (· ≠ ':') with
  | ':' :: r =>
    scheme ≠ [] && (scheme.headD 'a').isAlpha && scheme.all schemeChar &&
      (match r with
       | '/' :: '/' :: netlocStart =>
         netlocStart.takeWhile (fun c => c ≠ '/' && c ≠ '?' && c ≠ '#') ≠ []
       | _ => false)
  | _ => false

/-- Whitespace skipped between JSON tokens. -/
def jsSkipWs : List Char → List Char :=
  List.dropWhile (fun c => c = ' ' ∨ c = '\t' ∨ c = '\n' ∨ c = '\r')

/-- Consume the remainder of a JSON string literal after the opening
quote; escape sequences are modelled as a backslash protecting the next
character. -/
def jsStringRest : List Char → Option (List Char)
  | [] => none
  | '"' :: t => some t
  | '\\' :: _ :: t => jsStringRest t
  | '\\' :: [] => none
  | _ :: t => jsStringRest t

/-- A loose JSON number token: sign, digits, point, exponent characters. -/
def jsNumChar (c : Char) : Bool :=
  c.isDigit || c = '-' || c = '+' || c = '.' || c = 'e' || c = 'E'

mutual

/-- Model of `json.loads` validity (`Utils.is_json` of the storage client,
which is outside this repository).  Modelled from the spec: "JSON accepts a
mapping value or a JSON-parseable string".  A fuel-indexed recursive
descent over values, arrays and objects; numbers are recognised loosely. -/
def jsVal : Nat → List Char → Option (List Char)
  | 0, _ => none
  | fuel + 1, cs =>
    let lb := Char.ofNat 123
    let rb := Char.ofNat 125
    match jsSkipWs cs with
    | 'n' :: 'u' :: 'l' :: 'l' :: t => some t
    | 't' :: 'r' :: 'u' :: 'e' :: t => some t
    | 'f' :: 'a' :: 'l' :: 's' :: 'e' :: t => some t
    | '"' :: t => jsStringRest t
    | '[' :: t =>
      (match jsSkipWs t with
       | ']' :: t2 => some t2
       | t2 => jsSeq fuel t2 ']')
    | c :: t =>
      if c = lb then
        match jsSkipWs t with
        | c2 :: t2 => if c2 = rb then some t2 else jsMembers fuel (c2 :: t2)
        | [] => none
      else
        let taken := (c :: t).takeWhile jsNumChar
        let rest := (c :: t).dropWhile jsNumChar
        if taken ≠ [] ∧ taken.any (·.isDigit) then some rest else none
    | [] => none

/-- Comma-separated JSON values up to a closing bracket. -/
def jsSeq : Nat → List Char → Char → Option (List Char)
  | 0, _, _ => none
  | fuel + 1, cs, close =>
    match jsVal fuel cs with
    | none => none
    | some r =>
      match jsSkipWs r with
      | ',' :: t => jsSeq fuel t close
      | c :: t => if c = close then some t else none
      | [] => none

/-- Comma-separated `"key": value` members up to a closing brace. -/
def jsMembers : Nat → List Char → Option (List Char)
  | 0, _ => none
  | fuel + 1, cs =>
    let rb := Char.ofNat 125
    match jsSkipWs cs with
    | '"' :: t =>
      match jsStringRest t with
      | none => none
      | some afterKey =>
        match jsSkipWs afterKey with
        | ':' :: t2 =>
          match jsVal fuel t2 with
          | none => none
          | some r =>
            match jsSkipWs r with
            | ',' :: t3 => jsMembers fuel t3
            | c :: t3 => if c = rb then some t3 else none
            | [] => none
        | _ => none
    | _ => none

end

/-- A string is valid JSON when one value parses and only whitespace
remains. -/
def isJson (s : String) : Bool :=
  match jsVal (s.length + 1) s.toList with
  | some r => jsSkipWs r = []
  | none => false

/-! ### The type validator and cleaner -/

/-- The sorted `_valid_type_strings` list. -/
def validTypeStrings : List String :=
  ["IPv4", "IPv6", "JSON", "URL", "X509 certificate", "boolean", "enumeration",
   "float", "integer", "password", "script", "string"]

/-- The `RESERVED_CATG` list. -/
def RESERVED_CATG : List String :=
  ["South", "North", "General", "Advanced", "Utilities", "rest_api",
   "Security", "service", "SCHEDULER", "SMNTR", "PURGE_READ", "Notifications"]

/-- What a call of `_validate_type_value` produces: a Python boolean, an
address object (`ipaddress` success), the implicit `None` of a fall-through,
or an exception escaping the helper. -/
inductive ValidateResult where
  | pyBool (b : Bool)
  | pyAddr (a : String)
  | pyNone
  | pyRaise
deriving DecidableEq

/-- Whether a `ValidateResult` is Python's `False` — every call site tests
`_validate_type_value(...) is False`. -/
def ValidateResult.isFalseV : ValidateResult → Bool
  | .pyBool false => true
  | _ => false

/-- Model of `ConfigurationManager._validate_type_value`.  The source has
an `if`-chain over the type string with no final `else`, so enumeration,
password, X509 certificate and script (and any other type value) fall off
the end and return `None`. -/
def validateTypeValue (t v : EVal) : ValidateResult :=
  if t = .str "boolean" then
    match v with
    | .str s => .pyBool (pyLower s == "true" || pyLower s == "false")
    | _ => .pyRaise
  else if t = .str "integer" then
    match v with
    | .str s => .pyBool (pyParseInt s).isSome
    | _ => .pyRaise
  else if t = .str "float" then
    match v with
    | .str s => .pyBool (pyParseFloat s).isSome
    | _ => .pyRaise
  else if t = .str "JSON" then
    match v with
    | .dict _ => .pyBool true
    | .str s => .pyBool (isJson s)
    | _ => .pyRaise
  else if t = .str "IPv4" ∨ t = .str "IPv6" then
    match v with
    | .str s =>
      match pyIpAddress s with
      | some a => .pyAddr a
      | none => .pyBool false
    | _ => .pyBool false
  else if t = .str "URL" then
    match v with
    | .str s => .pyBool (urlHasSchemeAndNetloc s)
    | _ => .pyBool false
  else if t = .str "string" then
    .pyBool (match v with | .str _ => true | _ => false)
  else
    .pyNone

/-- Model of `ConfigurationManager._clean`: lowercase booleans, canonical
float string for floats, identity otherwise.  The error cases model the
exceptions `str.lower` and `float()` raise on unsuitable inputs. -/
def pyClean (itemType v : EVal) : Except String EVal :=
  if itemType = .str "boolean" then
    match v with
    | .str s => .ok (.str (pyLower s))
    | _ => .error "AttributeError: value has no attribute lower"
  else if itemType = .str "float" then
    match v with
    | .str s =>
      match pyParseFloat s with
      | some d => .ok (.str (pyFloatRepr d))
      | none => .error "ValueError: could not convert string to float"
    | _ => .error "TypeError: float argument must be a string or a number"
  else .ok v

/-! ### Storage, cache and effects -/

/-- One row of the `configuration` table. -/
structure ConfigRow where
  key : String
  description : String
  value : EVal
  displayName : String
deriving DecidableEq

/-- In-memory model of the storage-service tables used by the
configuration manager. -/
structure Storage where
  configuration : List ConfigRow
  categoryChildren : List (String × String)
deriving DecidableEq

/-- A cached category: the dict stored per key by `ConfigurationCache`.
`date_accessed` and `hit` are optional because `_update_category`'s direct
dict write creates entries without them and `update` never writes
`hit`. -/
structure CacheEntry where
  dateAccessed : Option Nat
  value : EVal
  displayName : String
  hit : Option Nat
deriving DecidableEq

/-- The configuration-manager state: storage tables, the configuration
cache with its hit and miss counters, and a logical clock standing in for
`datetime.now()`. -/
structure CMState where
  storage : Storage
  cache : List (String × CacheEntry)
  cacheHit : Nat
  cacheMiss : Nat
  clock : Nat
deriving DecidableEq

/-- Observable effects of a configuration-manager operation: storage
writes, audit records and callback invocations. -/
inductive Effect where
  | insertConfig (key description : String) (value : EVal) (displayName : String)
  | updateConfig (key : String) (value : EVal) (description displayName : String)
  | jsonUpdateValue (key item : String) (newValue : EVal)
  | bulkUpdateValues (key : String) (updates : List (String × EVal))
  | deleteChildEdges (child : String)
  | deleteConfig (key : String)
  | auditConad (name : String) (value : EVal)
  | auditConchItem (category item : String) (oldValue : Option EVal) (newValue : EVal)
  | auditConchDeprecated (category : Option String) (item : String) (oldValue : EVal)
  | auditConchBulk (category : String) (items : List (String × EVal × EVal))
  | auditConchDeleted (category : String)
  | runCallbacks (category : String)
deriving DecidableEq

/-- Whether an effect is an audit record (`AuditLogger.information`). -/
def Effect.isAudit : Effect → Bool
  | .auditConad _ _ | .auditConchItem _ _ _ _ | .auditConchDeprecated _ _ _
  | .auditConchBulk _ _ | .auditConchDeleted _ => true
  | _ => false

/-- Whether an effect is a write against the storage service. -/
def Effect.isStorageWrite : Effect → Bool
  | .insertConfig _ _ _ _ | .updateConfig _ _ _ _ | .jsonUpdateValue _ _ _
  | .bulkUpdateValues _ _ | .deleteChildEdges _ | .deleteConfig _ => true
  | _ => false

/-- Whether an effect is a `_run_callbacks` invocation point. -/
def Effect.isCallbackRun : Effect → Bool
  | .runCallbacks _ => true
  | _ => false

/-- `ConfigurationCache.MAX_CACHE_SIZE`. -/
def MAX_CACHE_SIZE : Nat := 10

/-- The scan of `ConfigurationCache.remove_oldest`: the running best entry
is replaced when a strictly older access date is seen, so the earliest
iterated entry wins ties.  Comparing a missing `date_accessed` raises. -/
def removeOldestScan : List (String × CacheEntry) → String → CacheEntry → Except String String
  | [], bestK, _ => .ok bestK
  | (k, e) :: t, bestK, bestE =>
    match e.dateAccessed, bestE.dateAccessed with
    | some d, some bd =>
      if d < bd then removeOldestScan t k e else removeOldestScan t bestK bestE
    | _, _ => .error "KeyError: date_accessed"

/-- `ConfigurationCache.remove_oldest`. -/
def removeOldest (cache : List (String × CacheEntry)) :
    Except String (List (String × CacheEntry)) :=
  match cache with
  | [] => .error "KeyError: None"
  | (k, e) :: t =>
    match removeOldestScan t k e with
    | .ok oldest => .ok (aremove oldest cache)
    | .error msg => .error msg

/-- `ConfigurationCache.__contains__`: a hit bumps the counters and the
access date (a missing `hit` key is treated as 0), a miss bumps the miss
counter. -/
def cacheContains (name : String) (st : CMState) : Bool × CMState :=
  match alookup name st.cache with
  | some e =>
    (true, { st with
      cache := aset name
        { e with dateAccessed := some st.clock, hit := some (e.hit.getD 0 + 1) } st.cache,
      cacheHit := st.cacheHit + 1,
      clock := st.clock + 1 })
  | none => (false, { st with cacheMiss := st.cacheMiss + 1 })

/-- `ConfigurationCache.update`: evict the oldest entry when a new key
would exceed the capacity, then store a fresh entry dict (which has no
`hit` key). -/
def cacheUpdate (name : String) (v : EVal) (displayName : Option String) (st : CMState) :
    Except String CMState :=
  let evicted : Except String (List (String × CacheEntry)) :=
    if (alookup name st.cache).isNone ∧ st.cache.length ≥ MAX_CACHE_SIZE then
      removeOldest st.cache
    else .ok st.cache
  match evicted with
  | .error msg => .error msg
  | .ok cache2 =>
    let dn := displayName.getD name
    .ok { st with
      cache := aset name ⟨some st.clock, v, dn, none⟩ cache2,
      clock := st.clock + 1 }

/-- `ConfigurationCache.remove`. -/
def cacheRemove (key : String) (cache : List (String × CacheEntry)) :
    List (String × CacheEntry) :=
  aremove key cache

/-- `SELECT value FROM configuration WHERE key = name`
(`_read_category_val`): the value of the first matching row. -/
def readCategoryVal (stg : Storage) (name : String) : Option EVal :=
  match stg.configuration.find? (fun r => r.key == name) with
  | some r => some r.value
  | none => none

/-- The JSON-path read `value -> item_name` of `_read_item_val`: `none`
both when the category row is missing and when the path yields JSON
null. -/
def readItemVal (stg : Storage) (name itemName : String) : Option EVal :=
  match readCategoryVal stg name with
  | some (.dict d) => alookup itemName d
  | _ => none

/-- The JSON-path read `value -> item_name -> value` of
`_read_value_val`. -/
def readValueVal (stg : Storage) (name itemName : String) : Option EVal :=
  match readItemVal stg name itemName with
  | some (.dict item) => alookup "value" item
  | _ => none

/-- The `jsonb_set(value, '(item,value)', new)` update of
`_update_value_val`: rewrite the `value` entry of an existing item dict of
an existing row; anything else leaves the table unchanged. -/
def storageJsonSetValue (stg : Storage) (name itemName : String) (newVal : EVal) : Storage :=
  { stg with configuration := stg.configuration.map (fun r =>
      if r.key == name then
        match r.value with
        | .dict d =>
          match alookup itemName d with
          | some (.dict item) =>
            { r with value := .dict (aset itemName (.dict (aset "value" newVal item)) d) }
          | _ => r
        | _ => r
      else r) }

/-- The full-row `SET value, description, display_name WHERE key` update of
`_update_category`. -/
def storageUpdateRow (stg : Storage) (name : String) (v : EVal) (desc dn : String) : Storage :=
  { stg with configuration := stg.configuration.map (fun r =>
      if r.key == name then { r with value := v, description := desc, displayName := dn }
      else r) }

/-- The `INSERT INTO configuration` of `_create_new_category`. -/
def storageInsertRow (stg : Storage) (row : ConfigRow) : Storage :=
  { stg with configuration := stg.configuration ++ [row] }

/-! ### The category validator (`_validate_category_val`)

`require_entry_value` is always `not set_value_val_from_default_val` in the
source, so the single flag `setFromDefault` drives both.  Dict keys are
strings by construction of `EVal`, so the `type(item_name) is not str` and
`type(entry_name) is not str` checks cannot fire in the model. -/

/-- The keys of `optional_item_entries`. -/
def optionalItemEntries : List String :=
  ["readonly", "order", "length", "maximum", "minimum", "deprecated", "displayName"]

/-- The enumeration handling and the entry_val-must-be-a-string check at
the top of the entry loop of `_validate_category_val`. -/
def checkEntryShape (isEnum : Bool) (item : List (String × EVal))
    (entryName : String) (entryVal : EVal) : Except String Unit :=
  if isEnum then
    if (alookup "options" item).isNone then
      .error "KeyError: options required for enumeration type"
    else if entryName = "options" then
      match entryVal with
      | .strList opts =>
        if opts = [] then .error "ValueError: entry_val cannot be empty list"
        else
          match alookup "default" item with
          | none => .error "IndexError: list index out of range"
          | some (.str d) =>
            if d ∈ opts then .ok ()
            else .error "ValueError: entry_val does not exist in options list"
          | some _ => .error "ValueError: entry_val does not exist in options list"
      | _ => .error "TypeError: entry_val must be a list"
    else
      match entryVal with
      | .str _ => .ok ()
      | _ => .error "TypeError: entry_val must be a string"
  else
    match entryVal with
    | .str _ => .ok ()
    | _ => .error "TypeError: entry_val must be a string"

/-- The per-type checks of the optional entries. -/
def checkEntryOptional (entryName : String) (entryVal : EVal) : Except String Unit :=
  if entryName ∈ optionalItemEntries then
    if entryName = "readonly" ∨ entryName = "deprecated" then
      match validateTypeValue (.str "boolean") entryVal with
      | .pyBool false => .error "ValueError: Entry value must be boolean"
      | .pyRaise => .error "TypeError: in boolean validator"
      | _ => .ok ()
    else if entryName = "minimum" ∨ entryName = "maximum" then
      if (validateTypeValue (.str "integer") entryVal).isFalseV &&
         (validateTypeValue (.str "float") entryVal).isFalseV then
        .error "ValueError: Entry value must be an integer or float"
      else .ok ()
    else if entryName = "displayName" then
      match entryVal with
      | .str _ => .ok ()
      | _ => .error "ValueError: Entry value must be string"
    else
      match validateTypeValue (.str "integer") entryVal with
      | .pyBool false => .error "ValueError: Entry value must be an integer"
      | .pyRaise => .error "TypeError: in integer validator"
      | _ => .ok ()
  else .ok ()

/-- The tail of the entry loop: the no-value-on-create rule, the
`expected_item_entries` bookkeeping (which reduces to a membership test)
and the valid-type-strings check. -/
def checkEntryTail (setFromDefault isEnum : Bool) (entryName : String)
    (entryVal : EVal) : Except String Unit :=
  if setFromDefault ∧ entryName = "value" then
    .error "ValueError: Specifying value_name and value_val is not allowed"
  else
    if ¬(entryName ∈ ["description", "default", "type"] ∨
        (¬setFromDefault ∧ entryName = "value") ∨
        entryName ∈ optionalItemEntries ∨
        (isEnum = true ∧ entryName = "options")) then
      .error "ValueError: Unrecognized entry_name"
    else if entryName = "type" then
      match entryVal with
      | .str s =>
        if s ∈ validTypeStrings then .ok ()
        else .error "ValueError: Invalid entry_val for entry_name type"
      | _ => .error "ValueError: Invalid entry_val for entry_name type"
    else .ok ()

/-- The checks the entry loop of `_validate_category_val` performs for one
`(entry_name, entry_val)` pair of an item. -/
def checkEntry (setFromDefault : Bool) (item : List (String × EVal))
    (entryName : String) (entryVal : EVal) : Except String Unit :=
  match checkEntryShape (alookup "type" item == some (.str "enumeration")) item
      entryName entryVal with
  | .error e => .error e
  | .ok () =>
    match checkEntryOptional entryName entryVal with
    | .error e => .error e
    | .ok () =>
      checkEntryTail setFromDefault (alookup "type" item == some (.str "enumeration"))
        entryName entryVal

/-- Run `checkEntry` over every entry of an item, in order. -/
def checkEntries (setFromDefault : Bool) (item : List (String × EVal)) :
    List (String × EVal) → Except String Unit
  | [] => .ok ()
  | (entryName, entryVal) :: rest =>
    match checkEntry setFromDefault item entryName entryVal with
    | .error e => .error e
    | .ok () => checkEntries setFromDefault item rest

/-- Replace a boolean-typed optional entry by its cleaned (lowercased)
form when present. -/
def cleanBooleanEntry (k : String) (item : List (String × EVal)) :
    Except String (List (String × EVal)) :=
  match alookup k item with
  | none => .ok item
  | some v =>
    match pyClean (.str "boolean") v with
    | .ok v2 => .ok (aset k v2 item)
    | .error e => .error e

/-- The entries every item must supply: `{description, default, type}`,
plus `value` when values are not filled from defaults (the
`expected_item_entries` seed), in its iteration order for the
missing-entry check. -/
def requiredEntryKeys (setFromDefault : Bool) : List String :=
  ["description", "default", "type"] ++ (if setFromDefault then [] else ["value"])

/-- Validate and normalise one item of a category value, mirroring the
per-item body of `_validate_category_val`. -/
def cleanItemEntries (setFromDefault : Bool) (tv : EVal)
    (item : List (String × EVal)) : Except String EVal :=
  match cleanBooleanEntry "readonly" item with
  | .error e => .error e
  | .ok item2 =>
    match cleanBooleanEntry "deprecated" item2 with
    | .error e => .error e
    | .ok item3 =>
      if setFromDefault then
        match pyClean tv ((alookup "default" item3).getD .pyNone) with
        | .error e => .error e
        | .ok d2 =>
          let item4 := aset "default" d2 item3
          -- item_val['value'] = item_val['default'] reads the cleaned default
          .ok (.dict (aset "value" d2 item4))
      else .ok (.dict item3)

def validateItem (setFromDefault : Bool) (itemVal : EVal) : Except String EVal :=
  match itemVal with
  | .dict item =>
    match checkEntries setFromDefault item item with
    | .error e => .error e
    | .ok () =>
      match (requiredEntryKeys setFromDefault).find? (fun k => (alookup k item).isNone) with
      | some _ => .error "ValueError: Missing entry_name"
      | none =>
        -- the default value must validate under the item type
        let tv := (alookup "type" item).getD .pyNone
        let dv := (alookup "default" item).getD .pyNone
        match validateTypeValue tv dv with
        | .pyBool false => .error "ValueError: Unrecognized value for item_name"
        | .pyRaise => .error "TypeError: in validator"
        | _ => cleanItemEntries setFromDefault tv item
  | _ => .error "TypeError: item_value must be a dict"

/-- Validate every item of a category value in order. -/
def validateItems (setFromDefault : Bool) :
    List (String × EVal) → Except String (List (String × EVal))
  | [] => .ok []
  | (n, iv) :: rest =>
    match validateItem setFromDefault iv with
    | .error e => .error e
    | .ok iv2 =>
      match validateItems setFromDefault rest with
      | .error e => .error e
      | .ok rest2 => .ok ((n, iv2) :: rest2)

/-- Model of `_validate_category_val`. -/
def validateCategoryVal (categoryVal : EVal) (setFromDefault : Bool) : Except String EVal :=
  match categoryVal with
  | .dict d =>
    match validateItems setFromDefault d with
    | .error e => .error e
    | .ok d2 => .ok (.dict d2)
  | _ => .error "TypeError: category_val must be a dictionary"

/-! ### Merge, create, update -/

/-- Whether an item dict carries `deprecated == 'true'` (the test
`'deprecated' in v and v['deprecated'] == 'true'`).  Non-dict item values
never reach this test on validated input. -/
def isDeprecatedTrue (v : EVal) : Bool :=
  match v with
  | .dict item =>
    match alookup "deprecated" item with
    | some dv => pyEq dv (.str "true")
    | none => false
  | _ => false

/-- One step of the merge pass: `item_val_new['value'] =
item_val_storage.get('value')` and the pop from the stored copy, when the
item is present there. -/
def mergeStep (n : String) (iv : EVal) (storRest : List (String × EVal)) :
    Except String (EVal × List (String × EVal)) :=
  match alookup n storRest with
  | some sv =>
    match sv with
    | .dict svd =>
      match iv with
      | .dict ivd =>
        .ok (.dict (aset "value" ((alookup "value" svd).getD .pyNone) ivd),
             aremove n storRest)
      | _ => .error "TypeError: item assignment on a non-dict"
    | _ => .error "AttributeError: get"
  | none => .ok (iv, storRest)

/-- The `CONCH` audit record for a deprecated item, reading
`item_val_new['value']` (a missing entry raises `KeyError`). -/
def mergeDepAudit (categoryName : Option String) (n : String) (iv2 : EVal) :
    Except String Effect :=
  match iv2 with
  | .dict d =>
    match alookup "value" d with
    | some oldV => .ok (.auditConchDeprecated categoryName n oldV)
    | none => .error "KeyError: value"
  | _ => .error "KeyError: value"

/-- The first pass of `_merge_category_vals`: walk the new items in order,
overwrite each `value` from the matching stored item (popping it from the
stored copy), and record deprecated items together with their `CONCH`
audit records.  Returns the processed new items, the remaining stored
items, the deprecated item names and the audit effects. -/
def mergeLoop (categoryName : Option String) :
    List (String × EVal) → List (String × EVal) →
    Except String (List (String × EVal) × List (String × EVal) × List String × List Effect)
  | [], storRest => .ok ([], storRest, [], [])
  | (n, iv) :: rest, storRest =>
    match mergeStep n iv storRest with
    | .error e => .error e
    | .ok (iv2, storRest2) =>
      if isDeprecatedTrue iv2 then
        match mergeDepAudit categoryName n iv2 with
        | .error e => .error e
        | .ok eff =>
          match mergeLoop categoryName rest storRest2 with
          | .error e => .error e
          | .ok (items, storFinal, deps, effs) =>
            .ok ((n, iv2) :: items, storFinal, n :: deps, eff :: effs)
      else
        match mergeLoop categoryName rest storRest2 with
        | .error e => .error e
        | .ok (items, storFinal, deps, effs) =>
          .ok ((n, iv2) :: items, storFinal, deps, effs)

/-- Model of `_merge_category_vals`. -/
def mergeCategoryVals (categoryValNew categoryValStorage : EVal) (keepOriginalItems : Bool)
    (categoryName : Option String) : Except String (EVal × List Effect) :=
  match categoryValNew, categoryValStorage with
  | .dict newD, .dict storD =>
    match mergeLoop categoryName newD storD with
    | .error e => .error e
    | .ok (items, storRest, deps, effs) =>
      let afterPop := deps.foldl (fun acc k => aremove k acc) items
      let merged :=
        if keepOriginalItems then
          storRest.foldl (fun acc p => aset p.1 p.2 acc) afterPop
        else afterPop
      .ok (.dict merged, effs)
  | _, _ => .error "AttributeError: items"

/-- Model of `_create_new_category`: strip deprecated items, emit the
`CONAD` audit, insert the row and write through the cache.  A cache
eviction failure surfaces as an error after the storage write, like the
exception it models. -/
def createNewCategory (name : String) (catVal : EVal) (desc : String)
    (displayName : Option String) (st : CMState) :
    Except String Unit × CMState × List Effect :=
  let newVal : EVal :=
    match catVal with
    | .dict d => .dict (d.filter (fun p => !isDeprecatedTrue p.2))
    | v => v
  let dn := displayName.getD name
  let effs := [Effect.auditConad name newVal, Effect.insertConfig name desc newVal dn]
  let st2 := { st with storage := storageInsertRow st.storage ⟨name, desc, newVal, dn⟩ }
  match cacheUpdate name newVal (some dn) st2 with
  | .ok st3 => (.ok (), st3, effs)
  | .error e => (.error e, st2, effs)

/-- Model of `_read_all_category_names` restricted to what its callers
consume: the `(key, description, display_name)` triples. -/
def readAllCategoryNames (stg : Storage) : List (String × String × String) :=
  stg.configuration.map (fun r => (r.key, r.description, r.displayName))

/-- Model of `_update_category`: write the row, re-read the stored value,
then refresh the cache — in place for a cached category, otherwise through
a direct dict write that bypasses `ConfigurationCache.update` (no
eviction, no `date_accessed`). -/
def updateCategory (name : String) (catVal : EVal) (desc : String)
    (displayName : Option String) (st : CMState) :
    Except String Unit × CMState × List Effect :=
  let dn := displayName.getD name
  let stg2 := storageUpdateRow st.storage name catVal desc dn
  let newDb : EVal := (readCategoryVal stg2 name).getD .pyNone
  let cache2 :=
    match alookup name st.cache with
    | some e => aset name { e with value := newDb, displayName := dn } st.cache
    | none => aset name ⟨none, newDb, dn, none⟩ st.cache
  (.ok (), { st with storage := stg2, cache := cache2 },
   [Effect.updateConfig name catVal desc dn])

/-- Model of `_update_value_val`: read the old value, issue the JSON-path
update and emit the `CONCH` audit. -/
def updateValueVal (name itemName : String) (newVal : EVal) (st : CMState) :
    Except String Unit × CMState × List Effect :=
  let oldValue := readValueVal st.storage name itemName
  let st2 := { st with storage := storageJsonSetValue st.storage name itemName newVal }
  (.ok (), st2,
   [Effect.jsonUpdateValue name itemName newVal,
    Effect.auditConchItem name itemName oldValue newVal])

/-- Model of `get_category_all_items`: serve a cache hit, otherwise read
storage and populate the cache. -/
def getCategoryAllItems (name : String) (st : CMState) :
    Except String (Option EVal) × CMState × List Effect :=
  let (hit, st1) := cacheContains name st
  if hit then
    match alookup name st1.cache with
    | some e => (.ok (some e.value), st1, [])
    | none => (.error "KeyError: cache", st1, [])
  else
    match readCategoryVal st1.storage name with
    | some cat =>
      match cacheUpdate name cat none st1 with
      | .ok st2 => (.ok (some cat), st2, [])
      | .error e => (.error e, st1, [])
    | none => (.ok none, st1, [])

/-! ### `set_category_item_value_entry` -/

/-- The enumeration check and the general type check applied to a new
value before it is written (`set_category_item_value_entry` and the bulk
update share this logic). -/
def checkNewValueAgainstType (item : List (String × EVal)) (tv newVal : EVal) :
    Except String Unit :=
  if tv = .str "enumeration" then
    if pyEq newVal (.str "") then .error "ValueError: entry_val cannot be empty"
    else
      match alookup "options" item with
      | some (.strList opts) =>
        (match newVal with
         | .str s =>
           if s ∈ opts then .ok ()
           else .error "ValueError: new value does not exist in options enum"
         | _ => .error "ValueError: new value does not exist in options enum")
      | some _ => .error "ValueError: new value does not exist in options enum"
      | none => .error "KeyError: options"
  else
    match validateTypeValue tv newVal with
    | .pyBool false => .error "TypeError: Unrecognized value name for item_name"
    | .pyRaise => .error "TypeError: in validator"
    | _ => .ok ()

/-- The post-write cache refresh of `set_category_item_value_entry`: the
raw `category_name in self._cacheManager.cache` test, then either the
nested `['value'][item]['value']` assignment or the quirkier
`update({item: cat_item['value']})` which stores the bare value. -/
def setRefreshCache (catName itemName : String) (catItem : Option EVal) (st : CMState) :
    Except String CMState :=
  match alookup catName st.cache with
  | none => .ok st
  | some e =>
    -- cat_item['value'] is read on both branches
    match catItem with
    | some (.dict ci) =>
      match alookup "value" ci with
      | some newv =>
        match e.value with
        | .dict d =>
          match alookup itemName d with
          | some (.dict cachedItem) =>
            let e2 := { e with value := .dict (aset itemName (.dict (aset "value" newv cachedItem)) d) }
            .ok { st with cache := aset catName e2 st.cache }
          | some _ => .error "TypeError: cached item is not a dict"
          | none =>
            let e2 := { e with value := .dict (aset itemName newv d) }
            .ok { st with cache := aset catName e2 st.cache }
        | _ => .error "TypeError: cached category value is not a dict"
      | none => .error "KeyError: value"
    | _ => .error "TypeError: NoneType is not subscriptable"

/-- Model of `set_category_item_value_entry`.  On a cache hit the early
no-op return compares the item's `value` entry with the new value; on a
cache miss the source compares the whole item dict with the new value
(`storage_value_entry == new_value_entry`), so equal values do not
short-circuit there. -/
def setCategoryItemValueEntry (catName itemName : String) (newVal : EVal) (st : CMState) :
    Except String Unit × CMState × List Effect :=
  let (hit, st1) := cacheContains catName st
  -- resolve storage_value_entry; `.ok none` stands for the early no-op return
  let resolve : Except String (Option EVal) :=
    if hit then
      match alookup catName st1.cache with
      | some e =>
        match e.value with
        | .dict d =>
          match alookup itemName d with
          | none => .error "ValueError: No detail found for the category_name and item_name"
          | some sve =>
            match sve with
            | .dict item =>
              match alookup "value" item with
              | some v => if pyEq v newVal then .ok none else .ok (some sve)
              | none => .error "KeyError: value"
            | _ => .error "TypeError: item is not subscriptable"
        | _ => .error "TypeError: cached category value is not a dict"
      | none => .error "KeyError: cache"
    else
      match readItemVal st1.storage catName itemName with
      | none => .error "ValueError: No detail found for the category_name and item_name"
      | some sve => if pyEq sve newVal then .ok none else .ok (some sve)
  match resolve with
  | .error e => (.error e, st1, [])
  | .ok none => (.ok (), st1, [])
  | .ok (some sve) =>
    match sve with
    | .dict item =>
      match alookup "type" item with
      | none => (.error "KeyError: type", st1, [])
      | some tv =>
        match checkNewValueAgainstType item tv newVal with
        | .error e => (.error e, st1, [])
        | .ok () =>
          match pyClean tv newVal with
          | .error e => (.error e, st1, [])
          | .ok newC =>
            match updateValueVal catName itemName newC st1 with
            | (.error e, st2, effs) => (.error e, st2, effs)
            | (.ok (), st2, effs) =>
              let catItem := readItemVal st2.storage catName itemName
              match setRefreshCache catName itemName catItem st2 with
              | .error e => (.error e, st2, effs)
              | .ok st3 => (.ok (), st3, effs ++ [Effect.runCallbacks catName])
    | _ => (.error "TypeError: item is not subscriptable", st1, [])

/-! ### `update_configuration_item_bulk` -/

/-- Per-item processing of the bulk update loop: shape checks, the
enumeration or type check, then cleaning and the change test.  Returns the
`(item, oldValue, cleanedNew)` triple of a changed item, or `none` for an
unchanged one. -/
def bulkCheckItem (catInfo : List (String × EVal)) (itemName : String) (newVal : EVal) :
    Except String (Option (String × EVal × EVal)) :=
  match alookup itemName catInfo with
  | none => .error "KeyError: config item not found"
  | some itemE =>
    match itemE with
    | .dict item =>
      match alookup "type" item with
      | none => .error "KeyError: type"
      | some tv =>
        let shape : Except String Unit :=
          if tv = .str "JSON" then
            match newVal with
            | .dict _ => .ok ()
            | .str _ => .ok ()
            | _ => .error "TypeError: new value should be a valid dict Or a string literal"
          else
            match newVal with
            | .str _ => .ok ()
            | _ => .error "TypeError: new value should be of type string"
        match shape with
        | .error e => .error e
        | .ok () =>
          match checkNewValueAgainstType item tv newVal with
          | .error e => .error e
          | .ok () =>
            match alookup "value" item with
            | none => .error "KeyError: value"
            | some oldValue =>
              match pyClean tv newVal with
              | .error e => .error e
              | .ok newC =>
                if pyEq oldValue newC then .ok none
                else .ok (some (itemName, oldValue, newC))
    | _ => .error "TypeError: item is not subscriptable"

/-- The bulk update collection loop: the payload updates and the audit
items, in iteration order. -/
def bulkCollect (catInfo : List (String × EVal)) :
    List (String × EVal) →
    Except String (List (String × EVal) × List (String × EVal × EVal))
  | [] => .ok ([], [])
  | (n, v) :: rest =>
    match bulkCheckItem catInfo n v with
    | .error e => .error e
    | .ok r =>
      match bulkCollect catInfo rest with
      | .error e => .error e
      | .ok (ups, auds) =>
        match r with
        | some (n2, ov, nv) => .ok ((n2, nv) :: ups, (n2, ov, nv) :: auds)
        | none => .ok (ups, auds)

/-- Apply the batched JSON-path updates one by one. -/
def applyBulkUpdates (stg : Storage) (name : String) :
    List (String × EVal) → Storage
  | [] => stg
  | (i, v) :: t => applyBulkUpdates (storageJsonSetValue stg name i v) name t

/-- The post-write cache refresh loop of the bulk update, iterating the
supplied item names over the re-read category value. -/
def bulkPatchCache (catName : String) (catValue : Option EVal) :
    List (String × EVal) → CMState → Except String CMState
  | [], st => .ok st
  | (itemName, _) :: rest, st =>
    match alookup catName st.cache with
    | none => bulkPatchCache catName catValue rest st
    | some e =>
      match e.value with
      | .dict d =>
        match catValue with
        | some (.dict cv) =>
          match alookup itemName cv with
          | some (.dict cvItem) =>
            match alookup "value" cvItem with
            | some newv =>
              match alookup itemName d with
              | some (.dict cachedItem) =>
                let e2 := { e with value := .dict (aset itemName (.dict (aset "value" newv cachedItem)) d) }
                bulkPatchCache catName catValue rest { st with cache := aset catName e2 st.cache }
              | some _ => .error "TypeError: cached item is not a dict"
              | none =>
                let e2 := { e with value := .dict (aset itemName newv d) }
                bulkPatchCache catName catValue rest { st with cache := aset catName e2 st.cache }
            | none => .error "KeyError: value"
          | _ => .error "TypeError: re-read item missing or not a dict"
        | _ => .error "TypeError: NoneType is not subscriptable"
      | _ => .error "TypeError: cached category value is not a dict"

/-- Model of `update_configuration_item_bulk`: validate and clean every
supplied item, collect only actual changes, and return before any storage
write, audit or callback when nothing changed. -/
def updateConfigurationItemBulk (catName : String) (configItemList : List (String × EVal))
    (st : CMState) : Except String Unit × CMState × List Effect :=
  match getCategoryAllItems catName st with
  | (.error e, st1, effs0) => (.error e, st1, effs0)
  | (.ok none, st1, effs0) => (.error "NameError: No such Category found", st1, effs0)
  | (.ok (some catE), st1, effs0) =>
    match catE with
    | .dict catInfo =>
      match bulkCollect catInfo configItemList with
      | .error e => (.error e, st1, effs0)
      | .ok (ups, auds) =>
        if ups = [] then (.ok (), st1, effs0)
        else
          let st2 := { st1 with storage := applyBulkUpdates st1.storage catName ups }
          let catValue := readCategoryVal st2.storage catName
          match bulkPatchCache catName catValue configItemList st2 with
          | .error e => (.error e, st2, effs0 ++ [Effect.bulkUpdateValues catName ups])
          | .ok st3 =>
            (.ok (), st3,
             effs0 ++ [Effect.bulkUpdateValues catName ups,
                       Effect.auditConchBulk catName auds,
                       Effect.runCallbacks catName])
    | _ => (.error "TypeError: category info is not a dict", st1, effs0)

/-! ### `create_category` -/

/-- Model of `create_category`.  The category name and description are
strings by the parameter types, matching the `isinstance` guards. -/
def createCategory (categoryName : String) (categoryValue : EVal) (categoryDescription : String)
    (keepOriginalItems : Bool) (displayName : Option String) (st : CMState) :
    Except String Unit × CMState × List Effect :=
  match validateCategoryVal categoryValue true with
  | .error e => (.error e, st, [])
  | .ok prepared =>
    match readCategoryVal st.storage categoryName with
    | none =>
      match createNewCategory categoryName prepared categoryDescription displayName st with
      | (.error e, st2, effs) => (.error e, st2, effs)
      | (.ok (), st2, effs) => (.ok (), st2, effs ++ [Effect.runCallbacks categoryName])
    | some stored =>
      match validateCategoryVal stored false with
      | .error _ =>
        -- the stored value is corrupt: the source only logs here, so no
        -- merge and no write happen; the callbacks still run afterwards
        (.ok (), st, [Effect.runCallbacks categoryName])
      | .ok storedVal =>
        match ((readAllCategoryNames st.storage).find?
            (fun c => c.1 == categoryName)).map (fun c => c.2.2) with
        | none => (.error "NameError: display_name_storage", st, [])
        | some displayNameStorage =>
          let displayName2 := displayName.getD displayNameStorage
          match mergeCategoryVals prepared storedVal keepOriginalItems (some categoryName) with
          | .error e => (.error e, st, [])
          | .ok (merged, mergeEffs) =>
            if jsonSortedEq merged storedVal then
              if displayNameStorage = displayName2 then
                -- the bare `return`: the callbacks below are skipped
                (.ok (), st, mergeEffs)
              else
                match updateCategory categoryName merged categoryDescription
                    (some displayName2) st with
                | (.error e, st2, effs) => (.error e, st2, mergeEffs ++ effs)
                | (.ok (), st2, effs) =>
                  (.ok (), st2, mergeEffs ++ effs ++ [Effect.runCallbacks categoryName])
            else
              match updateCategory categoryName merged categoryDescription
                  (some displayName2) st with
              | (.error e, st2, effs) => (.error e, st2, mergeEffs ++ effs)
              | (.ok (), st2, effs) =>
                (.ok (), st2, mergeEffs ++ effs ++ [Effect.runCallbacks categoryName])

/-! ### Parent/child tree operations and recursive delete -/

/-- `_read_all_child_category_names`: the children of a category, in edge
table order. -/
def childrenOf (stg : Storage) (cat : String) : List String :=
  (stg.categoryChildren.filter (fun p => p.1 == cat)).map (fun p => p.2)

/-- Collect `child :: descendants child` for each child in order (the
append/extend pattern of `_fetch_descendents`). -/
def fetchChildren (f : String → Except String (List String)) :
    List String → Except String (List String)
  | [] => .ok []
  | c :: rest =>
    match f c with
    | .error e => .error e
    | .ok ds =>
      match fetchChildren f rest with
      | .error e => .error e
      | .ok rest2 => .ok (c :: ds ++ rest2)

/-- Model of `_fetch_descendents`, a pure read of the edge table.  The
fuel bounds the recursion depth, standing in for Python's recursion
limit (a cycle in the edges exhausts it). -/
def fetchDescendents (stg : Storage) : Nat → String → Except String (List String)
  | 0, _ => .error "RecursionError"
  | fuel + 1, cat => fetchChildren (fetchDescendents stg fuel) (childrenOf stg cat)

/-- Run a delete step over a list of children sequentially, keeping
partial mutations on error as the source does. -/
def deleteList (f : String → CMState → Except String Unit × CMState × List Effect) :
    List String → CMState → Except String Unit × CMState × List Effect
  | [], st => (.ok (), st, [])
  | c :: rest, st =>
    match f c st with
    | (.error e, st2, effs) => (.error e, st2, effs)
    | (.ok (), st2, effs) =>
      match deleteList f rest st2 with
      | (r, st3, effs2) => (r, st3, effs ++ effs2)

/-- Model of `_delete_recursively`: recurse into the current children,
then delete the inbound edges (`child = cat`), delete the configuration
row and emit its `CONCH` audit (the storage service reports `deleted` for
the row delete), and drop the category from the cache. -/
def deleteRecursively : Nat → String → CMState → Except String Unit × CMState × List Effect
  | 0, _, st => (.error "RecursionError", st, [])
  | fuel + 1, cat, st =>
    match deleteList (deleteRecursively fuel) (childrenOf st.storage cat) st with
    | (.error e, st2, effs) => (.error e, st2, effs)
    | (.ok (), st2, effs) =>
      let stg2 := { st2.storage with
        categoryChildren := st2.storage.categoryChildren.filter (fun p => !(p.2 == cat)) }
      let stg3 := { stg2 with
        configuration := stg2.configuration.filter (fun r => !(r.key == cat)) }
      let cache2 :=
        if (alookup cat st2.cache).isSome then cacheRemove cat st2.cache else st2.cache
      ((.ok (), { st2 with storage := stg3, cache := cache2 },
        effs ++ [Effect.deleteChildEdges cat, Effect.deleteConfig cat,
                 Effect.auditConchDeleted cat]))

/-- Model of `delete_category_and_children_recursively`: the category must
exist, the DFS descendant set must contain no reserved category, then the
post-order delete runs. -/
def deleteCategoryAndChildrenRecursively (categoryName : String) (fuel : Nat)
    (st : CMState) : Except String Unit × CMState × List Effect :=
  match readCategoryVal st.storage categoryName with
  | none => (.error "ValueError: No such category exist", st, [])
  | some _ =>
    match fetchDescendents st.storage fuel categoryName with
    | .error e => (.error e, st, [])
    | .ok ds =>
      match RESERVED_CATG.find? (fun catg => ds.contains catg) with
      | some _ => (.error "ValueError: Reserved category found in descendents", st, [])
      | none => deleteRecursively fuel categoryName st

/-! ### The task scheduler

Times are epoch seconds as integers.  `datetime.fromtimestamp` and
`time.mktime` are modelled at a fixed UTC offset, under which they are
mutually inverse. -/

/-- `Scheduler._ScheduleType`. -/
inductive ScheduleKind where
  | timed
  | interval
  | manual
  | startup
deriving DecidableEq

/-- The fields of the `_Schedule` named tuple that `_schedule_next_task`
and `stop` consume (`repeat_seconds` is already derived as in
`_get_schedules`). -/
structure Sched where
  id : String
  name : String
  kind : ScheduleKind
  repeatSeconds : Option Int
  exclusive : Bool
  processName : String
deriving DecidableEq

/-- A task subprocess handle: its pid and whether it is still running
(terminating an exited process raises `ProcessLookupError`). -/
structure Proc where
  pid : Nat
  alive : Bool
deriving DecidableEq

/-- `Scheduler._ScheduleExecution`. -/
structure ScheduleExecution where
  nextStartTime : Option Int
  taskProcesses : List (String × Proc)
deriving DecidableEq

/-- The scheduler instance state.  `straySchedulerNextStartTime` models
the `self.next_start_time` attribute that `_schedule_next_task` writes on
the scheduler object itself (instead of the schedule execution) on its
early-exit path. -/
structure SchedulerState where
  startTime : Option Int
  paused : Bool
  schedules : List (String × Sched)
  scheduledProcesses : List (String × List String)
  scheduleExecutions : List (String × ScheduleExecution)
  activeTaskCount : Nat
  straySchedulerNextStartTime : Option Int
deriving DecidableEq

/-- Fixed-offset model of `datetime.fromtimestamp`. -/
def fromtimestampAt (tz t : Int) : Int := t + tz

/-- Fixed-offset model of `time.mktime`, the inverse conversion. -/
def mktimeAt (tz l : Int) : Int := l - tz

/-- Model of `Scheduler._schedule_next_task` at current time `now` and
timezone offset `tz`.  For an exclusive schedule with a non-zero repeat
the advance is `repeat_seconds + ceil((now - next_start_time) /
repeat_seconds)` — the period count is added, not multiplied by the
period.  Reading a missing schedule execution or arithmetic on a `None`
start time raises. -/
def scheduleNextTask (sched : Sched) (now tz : Int) (st : SchedulerState) :
    Except String (SchedulerState × Bool) :=
  if st.paused ∨ sched.repeatSeconds = none then
    .ok ({ st with straySchedulerNextStartTime := none }, false)
  else
    match sched.repeatSeconds with
    | none => .error "unreachable"
    | some adv =>
      match alookup sched.id st.scheduleExecutions with
      | none => .error "KeyError: schedule execution"
      | some se =>
        match se.nextStartTime with
        | none => .error "TypeError: unsupported operand type"
        | some nst =>
          let adv2 : Int :=
            if sched.exclusive ∧ adv ≠ 0 then
              adv + Int.ceil ((((now - nst : Int) : ℚ)) / ((adv : Int) : ℚ))
            else adv
          let nst2 : Int :=
            if sched.kind = .timed then
              mktimeAt tz (fromtimestampAt tz nst + adv2)
            else nst + adv2
          let se2 := { se with nextStartTime := some nst2 }
          .ok ({ st with scheduleExecutions := aset sched.id se2 st.scheduleExecutions },
               true)

/-- The effects of `Scheduler.stop`: waking the main loop, the TERM
signals, and the grace sleep. -/
inductive SchedEffect where
  | wakeMainLoop
  | termSignal (scheduleId taskId : String) (pid : Nat)
  | sleepMs (ms : Nat)
deriving DecidableEq

/-- The inner loop of `stop` over one execution's tasks: the logging call
reads the schedule and its scheduled process (an absent key raises), then
the live process receives TERM; `ProcessLookupError` from an exited one is
swallowed. -/
def termTasks (st : SchedulerState) (sid : String) :
    List (String × Proc) → Except String (List SchedEffect)
  | [] => .ok []
  | (tid, p) :: rest =>
    match alookup sid st.schedules with
    | none => .error "KeyError: schedule"
    | some sched =>
      match alookup sched.processName st.scheduledProcesses with
      | none => .error "KeyError: scheduled process"
      | some _ =>
        match termTasks st sid rest with
        | .error e => .error e
        | .ok effs =>
          .ok ((if p.alive then [SchedEffect.termSignal sid tid p.pid] else []) ++ effs)

/-- The outer loop of `stop` over the schedule executions. -/
def terminateAll (st : SchedulerState) :
    List (String × ScheduleExecution) → Except String (List SchedEffect)
  | [] => .ok []
  | (sid, se) :: rest =>
    match termTasks st sid se.taskProcesses with
    | .error e => .error e
    | .ok effs =>
      match terminateAll st rest with
      | .error e => .error e
      | .ok effs2 => .ok (effs ++ effs2)

/-- Model of `Scheduler.stop`: pause, wake the main loop, TERM every live
task, sleep about 100 ms, then raise `TimeoutError` when tasks remain
(leaving `_start_time` untouched) or clear `_start_time` and return
`True`. -/
def schedulerStop (st : SchedulerState) : Except String Bool × SchedulerState × List SchedEffect :=
  let st1 := { st with paused := true }
  match terminateAll st1 st1.scheduleExecutions with
  | .error e => (.error e, st1, [SchedEffect.wakeMainLoop])
  | .ok terms =>
    let effs := SchedEffect.wakeMainLoop :: (terms ++ [SchedEffect.sleepMs 100])
    if st1.activeTaskCount ≠ 0 then
      (.error "TimeoutError", st1, effs)
    else
      (.ok true, { st1 with startTime := none }, effs)

/-! ## Claims

Concrete states used by several of the claim theorems below. -/

/-- An empty configuration-manager state. -/
def emptyState : CMState := ⟨⟨[], []⟩, [], 0, 0, 0⟩

/-- A well-formed integer item schema for a category named `PURGE`. -/
def purgeVal : EVal :=
  .dict [("age", .dict [("description", .str "d"), ("type", .str "integer"),
    ("default", .str "72")])]

/-- The same schema with the item marked deprecated. -/
def depVal : EVal :=
  .dict [("age", .dict [("description", .str "d"), ("type", .str "integer"),
    ("default", .str "72"), ("deprecated", .str "true")])]

/-- A state whose storage holds one category `X` with an integer item
`info` of value `5`, and an empty cache. -/
def stateX : CMState :=
  ⟨⟨[⟨"X", "", .dict [("info", .dict [("description", .str "d"), ("type", .str "integer"),
      ("default", .str "5"), ("value", .str "5")])], "X"⟩], []⟩, [], 0, 0, 0⟩

/-- A cache already holding ten categories (the capacity), all with access
dates. -/
def tenEntryCache : List (String × CacheEntry) :=
  [("c0", ⟨some 0, .dict [], "c0", none⟩), ("c1", ⟨some 1, .dict [], "c1", none⟩),
   ("c2", ⟨some 2, .dict [], "c2", none⟩), ("c3", ⟨some 3, .dict [], "c3", none⟩),
   ("c4", ⟨some 4, .dict [], "c4", none⟩), ("c5", ⟨some 5, .dict [], "c5", none⟩),
   ("c6", ⟨some 6, .dict [], "c6", none⟩), ("c7", ⟨some 7, .dict [], "c7", none⟩),
   ("c8", ⟨some 8, .dict [], "c8", none⟩), ("c9", ⟨some 9, .dict [], "c9", none⟩)]

/-- A full cache together with an eleventh category present only in
storage. -/
def fullCacheState : CMState :=
  ⟨⟨[⟨"c10", "", .dict [], "c10"⟩], []⟩, tenEntryCache, 0, 0, 100⟩

/-- C2: the category-update path violates the cache bound.  With ten
cached categories, `_update_category` on a category that is in storage but
not in the cache writes the cache dict directly — bypassing
`ConfigurationCache.update` and its eviction — and leaves eleven entries,
contradicting the `size ≤ 10` invariant. -/
theorem C2_update_category_overflows_cache :
    fullCacheState.cache.length = MAX_CACHE_SIZE ∧
    (updateCategory "c10" (.dict []) "" none fullCacheState).1 = .ok () ∧
    ((updateCategory "c10" (.dict []) "" none fullCacheState).2.1.cache.length
      = MAX_CACHE_SIZE + 1) := by
  refine ⟨rfl, rfl, rfl⟩

/-- C3: on the cache-miss path, `set_category_item_value_entry` compares
the whole item dict with the new value, so a new value equal to the
current one does not short-circuit: one JSON-path storage update and one
`CONCH` audit are still issued, contradicting the method's own
docstring. -/
theorem C3_cache_miss_equal_value_still_writes :
    readValueVal stateX.storage "X" "info" = some (.str "5") ∧
    (alookup "X" stateX.cache) = none ∧
    (setCategoryItemValueEntry "X" "info" (.str "5") stateX).1 = .ok () ∧
    (setCategoryItemValueEntry "X" "info" (.str "5") stateX).2.2 =
      [Effect.jsonUpdateValue "X" "info" (.str "5"),
       Effect.auditConchItem "X" "info" (some (.str "5")) (.str "5"),
       Effect.runCallbacks "X"] := by
  refine ⟨rfl, rfl, rfl, rfl⟩

/-- The schedule and scheduler state of the C5 scenario: an exclusive
interval schedule with `repeat_seconds = 10` whose fire time was 1000. -/
def sched10 : Sched := ⟨"s1", "sched", .interval, some 10, true, "p"⟩

/-- Scheduler state for the C5 scenario. -/
def schedState : SchedulerState :=
  ⟨some 0, false, [("s1", sched10)], [("p", ["cmd"])],
   [("s1", ⟨some 1000, []⟩)], 0, none⟩

/-- C5: after a task of the exclusive 10-second schedule completes 35
seconds late, `_schedule_next_task` adds `10 + ceil(35/10) = 14` seconds —
the period count, not `ceil(35/10)` whole periods — so the next start is
1014, not the 1050 the specification describes, and it still lies in the
past (1014 < 1035), producing the very back-to-back fire the skip-ahead
was meant to prevent. -/
theorem C5_exclusive_advance_adds_period_count :
    scheduleNextTask sched10 1035 0 schedState =
      .ok ({ schedState with scheduleExecutions := [("s1", ⟨some 1014, []⟩)] }, true) ∧
    (1014 : Int) < 1035 ∧ (1014 : Int) ≠ 1000 + 50 := by
  have h4 : (⌈(7 : ℚ) / 2⌉ : Int) = 4 := by
    rw [Int.ceil_eq_iff]; norm_num
  refine ⟨?_, by norm_num, by norm_num⟩
  simp [scheduleNextTask, sched10, schedState, alookup, aset]
  norm_num [h4]

/-- A category whose stored value is corrupt: the item lacks the `value`
entry required by the `fill_value_from_default=false` re-validation. -/
def corruptState : CMState :=
  ⟨⟨[⟨"PURGE", "", purgeVal, "PURGE"⟩], []⟩, [], 0, 0, 0⟩

/-- C6: when the stored category value fails re-validation,
`create_category` persists nothing at all — the `except` branch only logs,
so the prepared value never reaches storage (the function merely runs the
callbacks and returns), contradicting the comment "nothing to salvage from
storage, use new completely". -/
theorem C6_corrupt_stored_nothing_persisted :
    (validateCategoryVal purgeVal false).isOk = false ∧
    (createCategory "PURGE" purgeVal "" false none corruptState).1 = .ok () ∧
    (createCategory "PURGE" purgeVal "" false none corruptState).2.1 = corruptState ∧
    (createCategory "PURGE" purgeVal "" false none corruptState).2.2 =
      [Effect.runCallbacks "PURGE"] := by
  refine ⟨rfl, rfl, rfl, rfl⟩

/-- A state holding only a reserved category with no children. -/
def reservedOnlyState : CMState :=
  ⟨⟨[⟨"SCHEDULER", "", .dict [], "SCHEDULER"⟩], []⟩, [], 0, 0, 0⟩

/-- A small tree `A → B` next to an unrelated reserved `SCHEDULER` row. -/
def treeState : CMState :=
  ⟨⟨[⟨"A", "", .dict [], "A"⟩, ⟨"B", "", .dict [], "B"⟩,
     ⟨"SCHEDULER", "", .dict [], "SCHEDULER"⟩], [("A", "B")]⟩, [], 0, 0, 0⟩

/-- C1 counterexample: the reserved-set guard inspects only the strict
descendants, so deleting the reserved category `SCHEDULER` itself (with no
children) succeeds and removes its configuration row — a run of the
operation in which a reserved category is deleted. -/
theorem C1_counterexample_reserved_root_deleted :
    "SCHEDULER" ∈ RESERVED_CATG ∧
    (deleteCategoryAndChildrenRecursively "SCHEDULER" 5 reservedOnlyState).1 = .ok () ∧
    readCategoryVal
      (deleteCategoryAndChildrenRecursively "SCHEDULER" 5 reservedOnlyState).2.1.storage
      "SCHEDULER" = none := by
  refine ⟨by decide, rfl, rfl⟩

/-- C4 counterexample: an item present in both the prepared and the stored
value but marked `deprecated == "true"` in the prepared value is dropped
from the merge result entirely (with a `CONCH` audit), so the merged
result has no `value` entry for it at all — the stored value `24` is not
preserved for that item. -/
theorem C4_counterexample_deprecated_item_dropped :
    mergeCategoryVals
      (.dict [("age", .dict [("description", .str "d"), ("type", .str "integer"),
        ("default", .str "72"), ("deprecated", .str "true"), ("value", .str "72")])])
      (.dict [("age", .dict [("description", .str "d"), ("type", .str "integer"),
        ("default", .str "72"), ("value", .str "24")])])
      false (some "PURGE") =
    .ok (.dict [], [Effect.auditConchDeprecated (some "PURGE") "age" (.str "24")]) := by
  rfl

/-- C7 counterexample: re-creating a category whose schema contains a
deprecated item emits a `CONCH` audit on the second call too (the merge
pass audits and drops the deprecated item), so the second call is not
audit-free. -/
theorem C7_counterexample_deprecated_audit_on_recreate :
    (createCategory "CAT" depVal "" false none emptyState).1 = .ok () ∧
    (createCategory "CAT" depVal "" false none
        (createCategory "CAT" depVal "" false none emptyState).2.1).1 = .ok () ∧
    (createCategory "CAT" depVal "" false none
        (createCategory "CAT" depVal "" false none emptyState).2.1).2.2 =
      [Effect.auditConchDeprecated (some "CAT") "age" (.str "72")] ∧
    ((createCategory "CAT" depVal "" false none
        (createCategory "CAT" depVal "" false none emptyState).2.1).2.2.any
      Effect.isAudit) = true := by
  refine ⟨rfl, rfl, rfl, rfl⟩

/-- C9 counterexample: the validator is not boolean-valued — for the
`password` type it falls off the end of the `if`-chain and returns
`None`, which is not a Python boolean. -/
theorem C9_counterexample_password_returns_none :
    validateTypeValue (.str "password") (.str "x") = .pyNone ∧
    (∀ b : Bool, ValidateResult.pyNone ≠ .pyBool b) := by
  exact ⟨rfl, by decide⟩

/-! ### Association-list lemmas -/

theorem alookup_aset_self {α : Type} (k : String) (v : α) (l : List (String × α)) :
    alookup k (aset k v l) = some v := by
  induction l with
  | nil => simp [aset, alookup]
  | cons p t ih =>
    obtain ⟨k2, v2⟩ := p
    by_cases h : k2 = k
    · simp [aset, alookup, h]
    · simp [aset, alookup, h, ih]

theorem alookup_aset_ne {α : Type} {k2 k : String} (h : k2 ≠ k) (v : α)
    (l : List (String × α)) : alookup k (aset k2 v l) = alookup k l := by
  induction l with
  | nil => simp [aset, alookup, h]
  | cons p t ih =>
    obtain ⟨k3, v3⟩ := p
    by_cases h3 : k3 = k2
    · subst h3
      simp [aset, alookup, h]
    · simp [aset, h3]
      by_cases h4 : k3 = k
      · simp [alookup, h4]
      · simp [alookup, h4, ih]

theorem alookup_aremove_ne {α : Type} {k2 k : String} (h : k2 ≠ k)
    (l : List (String × α)) : alookup k (aremove k2 l) = alookup k l := by
  induction l with
  | nil => simp [aremove]
  | cons p t ih =>
    obtain ⟨k3, v3⟩ := p
    by_cases h3 : k3 = k2
    · subst h3
      simp [aremove, alookup, h]
    · by_cases h4 : k3 = k
      · have h5 : ¬k = k2 := fun he => h he.symm
        subst h4
        simp [aremove, alookup, h3, h5]
      · simp [aremove, alookup, h3, h4, ih]

theorem aremove_of_alookup_none {α : Type} {k : String} {l : List (String × α)}
    (h : alookup k l = none) : aremove k l = l := by
  induction l with
  | nil => simp [aremove]
  | cons p t ih =>
    obtain ⟨k2, v2⟩ := p
    by_cases h2 : k2 = k
    · simp [alookup, h2] at h
    · simp [alookup, h2] at h
      simp [aremove, h2, ih h]

theorem aset_self_of_alookup {α : Type} {k : String} {v : α} {l : List (String × α)}
    (h : alookup k l = some v) : aset k v l = l := by
  induction l with
  | nil => simp [alookup] at h
  | cons p t ih =>
    obtain ⟨k2, v2⟩ := p
    by_cases h2 : k2 = k
    · simp [alookup, h2] at h
      simp [aset, h2, h]
    · simp [alookup, h2] at h
      simp [aset, h2, ih h]

theorem length_aremove_of_alookup {α : Type} {k : String} {v : α} :
    ∀ {l : List (String × α)}, alookup k l = some v →
      (aremove k l).length + 1 = l.length := by
  intro l
  induction l with
  | nil => intro h; simp [alookup] at h
  | cons p t ih =>
    obtain ⟨k2, v2⟩ := p
    intro h
    by_cases h2 : k2 = k
    · simp [aremove, h2]
    · simp [alookup, h2] at h
      simp [aremove, h2, ih h]

theorem alookup_eq_none_iff {α : Type} (k : String) (l : List (String × α)) :
    alookup k l = none ↔ k ∉ l.map Prod.fst := by
  induction l with
  | nil => simp [alookup]
  | cons p t ih =>
    obtain ⟨k2, v2⟩ := p
    by_cases h2 : k2 = k
    · simp [alookup, h2]
    · simp [alookup, h2, ih]
      intro h
      exact fun he => h2 he.symm

theorem alookup_mem {α : Type} {k : String} {v : α} :
    ∀ {l : List (String × α)}, alookup k l = some v → (k, v) ∈ l := by
  intro l
  induction l with
  | nil => intro h; simp [alookup] at h
  | cons p t ih =>
    obtain ⟨k2, v2⟩ := p
    intro h
    by_cases h2 : k2 = k
    · subst h2
      simp [alookup] at h
      simp [h]
    · simp [alookup, h2] at h
      exact List.mem_cons_of_mem _ (ih h)

theorem keys_aremove_sublist {α : Type} (k : String) (l : List (String × α)) :
    (aremove k l).Sublist l := by
  induction l with
  | nil => simp [aremove]
  | cons p t ih =>
    obtain ⟨k2, v2⟩ := p
    by_cases h2 : k2 = k
    · simp [aremove, h2]
    · simp [aremove, h2]
      exact ih

theorem keys_aremove_nodup {α : Type} {k : String} {l : List (String × α)}
    (h : (l.map Prod.fst).Nodup) : ((aremove k l).map Prod.fst).Nodup :=
  ((keys_aremove_sublist k l).map Prod.fst).nodup h

/-- C9 (amended): the validator returns `None` — never Python `False` —
for the password, X509 certificate and script types, so values of those
types always pass the `is False` checks of the create and update paths;
for boolean, integer, float, JSON, URL and string it returns a boolean on
every string input; and for IPv4/IPv6 it returns the parsed address
object on a valid address and `False` otherwise. -/
theorem C9_validator_permissive_unvalidated_types :
    (∀ v : EVal,
      validateTypeValue (.str "password") v = .pyNone ∧
      validateTypeValue (.str "X509 certificate") v = .pyNone ∧
      validateTypeValue (.str "script") v = .pyNone ∧
      (validateTypeValue (.str "password") v).isFalseV = false ∧
      (validateTypeValue (.str "X509 certificate") v).isFalseV = false ∧
      (validateTypeValue (.str "script") v).isFalseV = false) ∧
    (∀ s : String, ∀ t ∈ ["boolean", "integer", "float", "JSON", "URL", "string"],
      ∃ b : Bool, validateTypeValue (.str t) (.str s) = .pyBool b) ∧
    (∀ s : String, ∀ t ∈ ["IPv4", "IPv6"],
      (∀ a, pyIpAddress s = some a →
        validateTypeValue (.str t) (.str s) = .pyAddr a) ∧
      (pyIpAddress s = none →
        validateTypeValue (.str t) (.str s) = .pyBool false)) := by
  refine ⟨?_, ?_, ?_⟩
  · intro v
    refine ⟨rfl, rfl, rfl, rfl, rfl, rfl⟩
  · intro s t ht
    fin_cases ht
    · exact ⟨_, rfl⟩
    · exact ⟨_, rfl⟩
    · exact ⟨_, rfl⟩
    · exact ⟨_, rfl⟩
    · exact ⟨_, rfl⟩
    · exact ⟨_, rfl⟩
  · intro s t ht
    fin_cases ht
    · have h4 : validateTypeValue (.str "IPv4") (.str s) =
          (match pyIpAddress s with
           | some a => ValidateResult.pyAddr a
           | none => .pyBool false) := rfl
      constructor
      · intro a ha
        rw [h4, ha]
      · intro ha
        rw [h4, ha]
    · have h6 : validateTypeValue (.str "IPv6") (.str s) =
          (match pyIpAddress s with
           | some a => ValidateResult.pyAddr a
           | none => .pyBool false) := rfl
      constructor
      · intro a ha
        rw [h6, ha]
      · intro ha
        rw [h6, ha]

/-- Witness for C9: the permissiveness and the address branches applied at
concrete inputs. -/
theorem C9_witness :
    validateTypeValue (.str "password") (.str "anything") = .pyNone ∧
    (∃ b : Bool, validateTypeValue (.str "boolean") (.str "maybe") = .pyBool b) ∧
    validateTypeValue (.str "IPv4") (.str "10.0.0.1") = .pyAddr "10.0.0.1" ∧
    validateTypeValue (.str "IPv6") (.str "not an address") = .pyBool false := by
  exact ⟨(C9_validator_permissive_unvalidated_types.1 (.str "anything")).1,
    C9_validator_permissive_unvalidated_types.2.1 "maybe" "boolean" (by simp),
    (C9_validator_permissive_unvalidated_types.2.2 "10.0.0.1" "IPv4" (by simp)).1
      "10.0.0.1" (by rfl),
    (C9_validator_permissive_unvalidated_types.2.2 "not an address" "IPv6"
      (by simp)).2 (by rfl)⟩

/-! ### Merge lemmas for C4 -/

theorem alookup_aremove_none {α : Type} {k k2 : String} {l : List (String × α)}
    (h : alookup k l = none) : alookup k (aremove k2 l) = none := by
  by_cases h2 : k2 = k
  · subst h2
    rw [aremove_of_alookup_none h]
    exact h
  · rw [alookup_aremove_ne h2]
    exact h

theorem alookup_aremove_self_of_nodup {α : Type} {k : String} :
    ∀ {l : List (String × α)}, (l.map Prod.fst).Nodup →
      alookup k (aremove k l) = none := by
  intro l
  induction l with
  | nil => intro _; simp [aremove, alookup]
  | cons p t ih =>
    obtain ⟨k2, v2⟩ := p
    intro h
    rw [List.map_cons, List.nodup_cons] at h
    by_cases h2 : k2 = k
    · subst h2
      simp only [aremove, if_pos rfl]
      rw [alookup_eq_none_iff]
      exact h.1
    · simp [aremove, h2, alookup, h2, ih h.2]

theorem mergeStep_stor {n : String} {iv iv2 : EVal}
    {stor stor2 : List (String × EVal)}
    (h : mergeStep n iv stor = .ok (iv2, stor2)) :
    stor2 = stor ∨ stor2 = aremove n stor := by
  unfold mergeStep at h
  rcases h1 : alookup n stor with _ | sv
  · rw [h1] at h
    simp at h
    exact Or.inl h.2.symm
  · rw [h1] at h
    rcases sv with s | l | _ | svd
    all_goals simp at h
    rcases iv with s2 | l2 | _ | ivd
    all_goals simp at h
    exact Or.inr h.2.symm

theorem mergeLoop_deps_subset {catName : Option String} :
    ∀ {newD stor items sf : List (String × EVal)} {deps : List String} {effs : List Effect},
      mergeLoop catName newD stor = .ok (items, sf, deps, effs) →
      ∀ m ∈ deps, m ∈ newD.map Prod.fst := by
  intro newD
  induction newD with
  | nil =>
    intro stor items sf deps effs h
    simp [mergeLoop] at h
    obtain ⟨_, _, hdeps, _⟩ := h
    subst hdeps
    intro m hm
    simp at hm
  | cons p rest ih =>
    obtain ⟨n, iv⟩ := p
    intro stor items sf deps effs h
    rcases hstep : mergeStep n iv stor with e | ⟨iv2, stor2⟩
    · simp [mergeLoop, hstep] at h
    · simp only [mergeLoop, hstep] at h
      by_cases hdep : isDeprecatedTrue iv2 = true
      · rw [if_pos hdep] at h
        rcases haud : mergeDepAudit catName n iv2 with e2 | eff <;> rw [haud] at h
        · simp at h
        · rcases hrec : mergeLoop catName rest stor2 with e2 | ⟨items2, sf2, deps2, effs2⟩ <;>
            rw [hrec] at h
          · simp at h
          · simp at h
            obtain ⟨_, _, hdeps, _⟩ := h
            subst hdeps
            intro m hm
            simp at hm
            rcases hm with hm | hm
            · simp [hm]
            · simp
              exact Or.inr (by simpa using ih hrec m hm)
      · rw [if_neg hdep] at h
        rcases hrec : mergeLoop catName rest stor2 with e2 | ⟨items2, sf2, deps2, effs2⟩ <;>
          rw [hrec] at h
        · simp at h
        · simp at h
          obtain ⟨_, _, hdeps, _⟩ := h
          subst hdeps
          intro m hm
          simp
          exact Or.inr (by simpa using ih hrec m hm)

theorem mergeLoop_stor_lookup_none {catName : Option String} {k : String} :
    ∀ {newD stor items sf : List (String × EVal)} {deps : List String} {effs : List Effect},
      alookup k stor = none →
      mergeLoop catName newD stor = .ok (items, sf, deps, effs) →
      alookup k sf = none := by
  intro newD
  induction newD with
  | nil =>
    intro stor items sf deps effs hnone h
    simp [mergeLoop] at h
    obtain ⟨_, hsf, _, _⟩ := h
    subst hsf
    exact hnone
  | cons p rest ih =>
    obtain ⟨n, iv⟩ := p
    intro stor items sf deps effs hnone h
    rcases hstep : mergeStep n iv stor with e | ⟨iv2, stor2⟩
    · simp [mergeLoop, hstep] at h
    · simp only [mergeLoop, hstep] at h
      have hnone2 : alookup k stor2 = none := by
        rcases mergeStep_stor hstep with h2 | h2
        · rw [h2]; exact hnone
        · rw [h2]; exact alookup_aremove_none hnone
      by_cases hdep : isDeprecatedTrue iv2 = true
      · rw [if_pos hdep] at h
        rcases haud : mergeDepAudit catName n iv2 with e2 | eff <;> rw [haud] at h
        · simp at h
        · rcases hrec : mergeLoop catName rest stor2 with e2 | ⟨items2, sf2, deps2, effs2⟩ <;>
            rw [hrec] at h
          · simp at h
          · simp at h
            obtain ⟨_, hsf, _, _⟩ := h
            subst hsf
            exact ih hnone2 hrec
      · rw [if_neg hdep] at h
        rcases hrec : mergeLoop catName rest stor2 with e2 | ⟨items2, sf2, deps2, effs2⟩ <;>
          rw [hrec] at h
        · simp at h
        · simp at h
          obtain ⟨_, hsf, _, _⟩ := h
          subst hsf
          exact ih hnone2 hrec

theorem mergeLoop_lookup {catName : Option String} {itemName : String}
    {itemNew itemStored : List (String × EVal)} {sv : EVal} :
    ∀ {newD stor items sf : List (String × EVal)} {deps : List String} {effs : List Effect},
      (newD.map Prod.fst).Nodup →
      (stor.map Prod.fst).Nodup →
      alookup itemName newD = some (.dict itemNew) →
      alookup itemName stor = some (.dict itemStored) →
      (∀ dv, alookup "deprecated" itemNew = some dv → pyEq dv (.str "true") = false) →
      alookup "value" itemStored = some sv →
      mergeLoop catName newD stor = .ok (items, sf, deps, effs) →
      alookup itemName items = some (.dict (aset "value" sv itemNew)) ∧
      itemName ∉ deps ∧
      alookup itemName sf = none := by
  intro newD
  induction newD with
  | nil =>
    intro stor items sf deps effs _ _ hn
    simp [alookup] at hn
  | cons p rest ih =>
    obtain ⟨n, iv⟩ := p
    intro stor items sf deps effs hnd hsd hn hs hdep hv h
    rw [List.map_cons, List.nodup_cons] at hnd
    by_cases heq : n = itemName
    · subst heq
      simp only [alookup, if_pos rfl] at hn
      injection hn with hn
      subst hn
      have hstep : mergeStep n (.dict itemNew) stor =
          .ok (.dict (aset "value" sv itemNew), aremove n stor) := by
        unfold mergeStep
        rw [hs]
        simp [hv]
      simp only [mergeLoop, hstep] at h
      have hdepF : isDeprecatedTrue (.dict (aset "value" sv itemNew)) = false := by
        simp only [isDeprecatedTrue]
        rw [alookup_aset_ne (by decide)]
        rcases hdv : alookup "deprecated" itemNew with _ | dv
        · rfl
        · exact hdep dv hdv
      rw [hdepF] at h
      simp only [Bool.false_eq_true, if_false] at h
      rcases hrec : mergeLoop catName rest (aremove n stor) with e2 | ⟨items2, sf2, deps2, effs2⟩ <;>
        rw [hrec] at h
      · simp at h
      · simp at h
        obtain ⟨hitems, hsf, hdeps, _⟩ := h
        subst hitems
        subst hsf
        subst hdeps
        refine ⟨by simp [alookup], ?_, ?_⟩
        · intro hmem
          have := mergeLoop_deps_subset hrec n hmem
          exact hnd.1 (by simpa using this)
        · exact mergeLoop_stor_lookup_none (alookup_aremove_self_of_nodup hsd) hrec
    · simp only [alookup, if_neg heq] at hn
      rcases hstep : mergeStep n iv stor with e | ⟨iv2, stor2⟩
      · simp [mergeLoop, hstep] at h
      · simp only [mergeLoop, hstep] at h
        have hs2 : alookup itemName stor2 = some (.dict itemStored) := by
          rcases mergeStep_stor hstep with h2 | h2
          · rw [h2]; exact hs
          · rw [h2, alookup_aremove_ne heq]; exact hs
        have hsd2 : (stor2.map Prod.fst).Nodup := by
          rcases mergeStep_stor hstep with h2 | h2
          · rw [h2]; exact hsd
          · rw [h2]; exact keys_aremove_nodup hsd
        by_cases hdep2 : isDeprecatedTrue iv2 = true
        · rw [if_pos hdep2] at h
          rcases haud : mergeDepAudit catName n iv2 with e2 | eff <;> rw [haud] at h
          · simp at h
          · rcases hrec : mergeLoop catName rest stor2 with e2 | ⟨items2, sf2, deps2, effs2⟩ <;>
              rw [hrec] at h
            · simp at h
            · simp at h
              obtain ⟨hitems, hsf, hdeps, _⟩ := h
              subst hitems
              subst hsf
              subst hdeps
              obtain ⟨c1, c2, c3⟩ := ih hnd.2 hsd2 hn hs2 hdep hv hrec
              refine ⟨by simp [alookup, heq, c1], ?_, c3⟩
              intro hmem
              rcases List.mem_cons.mp hmem with hmem | hmem
              · exact heq hmem.symm
              · exact c2 hmem
        · rw [if_neg hdep2] at h
          rcases hrec : mergeLoop catName rest stor2 with e2 | ⟨items2, sf2, deps2, effs2⟩ <;>
            rw [hrec] at h
          · simp at h
          · simp at h
            obtain ⟨hitems, hsf, hdeps, _⟩ := h
            subst hitems
            subst hsf
            subst hdeps
            obtain ⟨c1, c2, c3⟩ := ih hnd.2 hsd2 hn hs2 hdep hv hrec
            exact ⟨by simp [alookup, heq, c1], c2, c3⟩

theorem foldl_aremove_lookup {itemName : String} :
    ∀ (deps : List String) (items : List (String × EVal)), itemName ∉ deps →
      alookup itemName (deps.foldl (fun acc k => aremove k acc) items) =
        alookup itemName items := by
  intro deps
  induction deps with
  | nil => intro items _; rfl
  | cons d t ih =>
    intro items hmem
    rw [List.mem_cons] at hmem
    push_neg at hmem
    simp only [List.foldl_cons]
    rw [ih _ hmem.2, alookup_aremove_ne (fun he => hmem.1 he.symm)]

theorem foldl_aset_lookup_of_none {itemName : String} :
    ∀ (sf : List (String × EVal)) (base : List (String × EVal)),
      alookup itemName sf = none →
      alookup itemName (sf.foldl (fun acc p => aset p.1 p.2 acc) base) =
        alookup itemName base := by
  intro sf
  induction sf with
  | nil => intro base _; rfl
  | cons p t ih =>
    obtain ⟨k2, v2⟩ := p
    intro base hnone
    by_cases h2 : k2 = itemName
    · simp [alookup, h2] at hnone
    · simp only [alookup, if_neg h2] at hnone
      simp only [List.foldl_cons]
      rw [ih _ hnone, alookup_aset_ne h2]

/-- C4 (amended): for an item present in both the prepared and the stored
category value and not marked deprecated in the prepared value, the merge
result keeps that item with its `value` entry overwritten by the stored
`value` entry while every other entry comes from the prepared
definition. -/
theorem C4_merge_preserves_stored_values
    (newD storD : List (String × EVal)) (keep : Bool) (catName : Option String)
    (itemName : String) (itemNew itemStored : List (String × EVal)) (sv merged : EVal)
    (effs : List Effect)
    (hnd : (newD.map Prod.fst).Nodup) (hsd : (storD.map Prod.fst).Nodup)
    (hn : alookup itemName newD = some (.dict itemNew))
    (hs : alookup itemName storD = some (.dict itemStored))
    (hdep : ∀ dv, alookup "deprecated" itemNew = some dv → pyEq dv (.str "true") = false)
    (hv : alookup "value" itemStored = some sv)
    (hm : mergeCategoryVals (.dict newD) (.dict storD) keep catName = .ok (merged, effs)) :
    ∃ md, merged = .dict md ∧
      alookup itemName md = some (.dict (aset "value" sv itemNew)) ∧
      alookup "value" (aset "value" sv itemNew) = some sv ∧
      (∀ e, e ≠ "value" → alookup e (aset "value" sv itemNew) = alookup e itemNew) := by
  rcases hloop : mergeLoop catName newD storD with e | ⟨items, sf, deps, effsL⟩ <;>
    simp only [mergeCategoryVals, hloop] at hm
  · simp at hm
  · simp at hm
    obtain ⟨hmerged, _⟩ := hm
    obtain ⟨c1, c2, c3⟩ := mergeLoop_lookup hnd hsd hn hs hdep hv hloop
    refine ⟨_, hmerged.symm, ?_, alookup_aset_self _ _ _,
      fun e he => alookup_aset_ne (fun h2 => he h2.symm) _ _⟩
    by_cases hkeep : keep = true
    · rw [if_pos hkeep]
      rw [foldl_aset_lookup_of_none _ _ c3, foldl_aremove_lookup deps items c2, c1]
    · rw [if_neg hkeep]
      rw [foldl_aremove_lookup deps items c2, c1]

/-- The prepared item of the C4 witness scenario: new default `100`. -/
def c4Item : List (String × EVal) :=
  [("description", .str "d"), ("type", .str "integer"),
   ("default", .str "100"), ("value", .str "100")]

/-- The stored item of the C4 witness scenario: stored value `24`. -/
def c4SItem : List (String × EVal) :=
  [("description", .str "d"), ("type", .str "integer"),
   ("default", .str "72"), ("value", .str "24")]

/-- Witness for C4 at the specification's example: stored value `"24"`
with new default `"100"` merges to value `"24"` and default `"100"`. -/
theorem C4_witness :
    ∃ md, EVal.dict [("age", .dict [("description", .str "d"), ("type", .str "integer"),
        ("default", .str "100"), ("value", .str "24")])] = .dict md ∧
      alookup "age" md = some (.dict (aset "value" (.str "24") c4Item)) ∧
      alookup "value" (aset "value" (.str "24") c4Item) = some (.str "24") ∧
      (∀ e, e ≠ "value" → alookup e (aset "value" (.str "24") c4Item) = alookup e c4Item) := by
  refine C4_merge_preserves_stored_values [("age", .dict c4Item)] [("age", .dict c4SItem)]
    false (some "PURGE") "age" c4Item c4SItem (.str "24") _ [] (by decide) (by decide)
    rfl rfl ?_ rfl rfl
  intro dv h
  simp [c4Item, alookup] at h

/-! ### Stop lemmas for C8 -/

theorem termTasks_eq (st : SchedulerState) (sid : String) :
    ∀ (tasks : List (String × Proc)),
      (∀ tp ∈ tasks, ((alookup sid st.schedules).bind
        (fun sch => alookup sch.processName st.scheduledProcesses)).isSome = true) →
      termTasks st sid tasks = .ok (tasks.filterMap
        (fun tp => if tp.2.alive then some (SchedEffect.termSignal sid tp.1 tp.2.pid)
                   else none)) := by
  intro tasks
  induction tasks with
  | nil => intro _; rfl
  | cons p t ih =>
    intro h
    have h0 := h p (by simp)
    rcases h1 : alookup sid st.schedules with _ | sch
    · rw [h1] at h0
      simp at h0
    · rw [h1] at h0
      simp only [Option.some_bind] at h0
      rcases h2 : alookup sch.processName st.scheduledProcesses with _ | pr
      · rw [h2] at h0
        simp at h0
      · obtain ⟨tid, pc⟩ := p
        have ihh := ih (fun tp htp => h tp (List.mem_cons_of_mem _ htp))
        simp only [termTasks, h1, h2, ihh, List.filterMap_cons]
        by_cases ha : pc.alive
        · simp [ha]
        · simp [ha]

theorem terminateAll_eq (st : SchedulerState) :
    ∀ (l : List (String × ScheduleExecution)),
      (∀ pe ∈ l, ∀ tp ∈ pe.2.taskProcesses, ((alookup pe.1 st.schedules).bind
        (fun sch => alookup sch.processName st.scheduledProcesses)).isSome = true) →
      terminateAll st l = .ok (l.flatMap (fun pe => pe.2.taskProcesses.filterMap
        (fun tp => if tp.2.alive then some (SchedEffect.termSignal pe.1 tp.1 tp.2.pid)
                   else none))) := by
  intro l
  induction l with
  | nil => intro _; rfl
  | cons pe rest ih =>
    intro h
    obtain ⟨sid, se⟩ := pe
    have h1 := termTasks_eq st sid se.taskProcesses (fun tp htp => h (sid, se) (by simp) tp htp)
    have h2 := ih (fun pe hpe tp htp => h pe (List.mem_cons_of_mem _ hpe) tp htp)
    simp [terminateAll, h1, h2]

/-- The TERM signals `stop()` sends: one for each live task process of
each schedule execution. -/
def liveTermEffects (st : SchedulerState) : List SchedEffect :=
  st.scheduleExecutions.flatMap (fun pe => pe.2.taskProcesses.filterMap
    (fun tp => if tp.2.alive then some (SchedEffect.termSignal pe.1 tp.1 tp.2.pid)
               else none))

/-- C8: the `stop()` contract.  It pauses the scheduler, wakes the main
loop, sends TERM to exactly the live task processes (exited ones are
skipped), sleeps about 100 ms, and then raises `TimeoutError` precisely
when `active_task_count > 0` — leaving `_start_time` untouched for a
retry — while on success it clears `_start_time` and returns `True`. -/
theorem C8_stop_contract (st : SchedulerState)
    (h : ∀ pe ∈ st.scheduleExecutions, ∀ tp ∈ pe.2.taskProcesses,
      ((alookup pe.1 st.schedules).bind
        (fun sch => alookup sch.processName st.scheduledProcesses)).isSome = true) :
    (schedulerStop st).2.1.paused = true ∧
    (schedulerStop st).2.2 =
      SchedEffect.wakeMainLoop :: (liveTermEffects st ++ [SchedEffect.sleepMs 100]) ∧
    (∀ sid tid pid, SchedEffect.termSignal sid tid pid ∈ (schedulerStop st).2.2 ↔
      ∃ se p, (sid, se) ∈ st.scheduleExecutions ∧ (tid, p) ∈ se.taskProcesses ∧
        p.alive = true ∧ p.pid = pid) ∧
    (st.activeTaskCount ≠ 0 →
      (schedulerStop st).1 = .error "TimeoutError" ∧
      (schedulerStop st).2.1.startTime = st.startTime) ∧
    (st.activeTaskCount = 0 →
      (schedulerStop st).1 = .ok true ∧ (schedulerStop st).2.1.startTime = none) := by
  have hterm := terminateAll_eq { st with paused := true } st.scheduleExecutions
    (fun pe hpe tp htp => h pe hpe tp htp)
  have heffs : (schedulerStop st).2.2 =
      SchedEffect.wakeMainLoop :: (liveTermEffects st ++ [SchedEffect.sleepMs 100]) := by
    simp only [schedulerStop, hterm]
    by_cases hc : st.activeTaskCount = 0
    · simp [hc, liveTermEffects]
    · simp [hc, liveTermEffects]
  refine ⟨?_, heffs, ?_, ?_, ?_⟩
  · simp only [schedulerStop, hterm]
    by_cases hc : st.activeTaskCount = 0
    · simp [hc]
    · simp [hc]
  · intro sid tid pid
    rw [heffs]
    constructor
    · intro hmem
      simp only [List.mem_cons, List.mem_append, List.mem_singleton] at hmem
      rcases hmem with hmem | hmem | hmem
      · exact absurd hmem (by simp)
      · simp only [liveTermEffects, List.mem_flatMap, List.mem_filterMap] at hmem
        obtain ⟨pe, hpe, tp, htp, hif⟩ := hmem
        obtain ⟨sid2, se⟩ := pe
        obtain ⟨tid2, pc⟩ := tp
        by_cases ha : pc.alive
        · rw [if_pos ha] at hif
          simp only [Option.some.injEq, SchedEffect.termSignal.injEq] at hif
          obtain ⟨hs2, ht2, hp2⟩ := hif
          subst hs2; subst ht2
          exact ⟨se, pc, hpe, htp, by simp [ha], hp2⟩
        · rw [if_neg ha] at hif
          exact absurd hif (by simp)
      · exact absurd hmem (by simp)
    · intro hex
      obtain ⟨se, pc, hpe, htp, ha, hp⟩ := hex
      simp only [List.mem_cons, List.mem_append]
      refine Or.inr (Or.inl ?_)
      simp only [liveTermEffects, List.mem_flatMap, List.mem_filterMap]
      exact ⟨(sid, se), hpe, (tid, pc), htp, by simp [ha, hp]⟩
  · intro hc
    simp only [schedulerStop, hterm]
    simp [hc]
  · intro hc
    simp only [schedulerStop, hterm]
    simp [hc]

/-- Witness for C8: a scheduler with two live tasks and active count 2
raises `TimeoutError`, keeps its start time, and has TERMed both
processes. -/
theorem C8_witness :
    (schedulerStop ⟨some 5, false, [("s1", sched10)], [("p", ["cmd"])],
        [("s1", ⟨some 1000, [("t1", ⟨11, true⟩), ("t2", ⟨12, true⟩)]⟩)], 2, none⟩).1 =
      .error "TimeoutError" ∧
    (schedulerStop ⟨some 5, false, [("s1", sched10)], [("p", ["cmd"])],
        [("s1", ⟨some 1000, [("t1", ⟨11, true⟩), ("t2", ⟨12, true⟩)]⟩)], 2, none⟩).2.1.paused
      = true ∧
    (schedulerStop ⟨some 5, false, [("s1", sched10)], [("p", ["cmd"])],
        [("s1", ⟨some 1000, [("t1", ⟨11, true⟩), ("t2", ⟨12, true⟩)]⟩)], 2, none⟩).2.1.startTime
      = some 5 ∧
    SchedEffect.termSignal "s1" "t2" 12 ∈
      (schedulerStop ⟨some 5, false, [("s1", sched10)], [("p", ["cmd"])],
        [("s1", ⟨some 1000, [("t1", ⟨11, true⟩), ("t2", ⟨12, true⟩)]⟩)], 2, none⟩).2.2 := by
  have h := C8_stop_contract ⟨some 5, false, [("s1", sched10)], [("p", ["cmd"])],
    [("s1", ⟨some 1000, [("t1", ⟨11, true⟩), ("t2", ⟨12, true⟩)]⟩)], 2, none⟩
    (by intro pe hpe tp htp; fin_cases hpe; simp [sched10, alookup])
  refine ⟨(h.2.2.2.1 (by decide)).1, h.1, (h.2.2.2.1 (by decide)).2, ?_⟩
  exact (h.2.2.1 "s1" "t2" 12).mpr ⟨⟨some 1000, [("t1", ⟨11, true⟩), ("t2", ⟨12, true⟩)]⟩,
    ⟨12, true⟩, by simp, by simp, rfl, rfl⟩

/-! ### Bulk-update lemmas for C10 -/

theorem cacheUpdate_storage {name : String} {v : EVal} {dn : Option String}
    {st st2 : CMState} (h : cacheUpdate name v dn st = .ok st2) :
    st2.storage = st.storage := by
  simp only [cacheUpdate] at h
  split at h
  · simp at h
  · rename_i c2 heq
    simp at h
    rw [← h]

theorem getCategoryAllItems_frame (name : String) (st : CMState) :
    (getCategoryAllItems name st).2.2 = [] ∧
    (getCategoryAllItems name st).2.1.storage = st.storage ∧
    (∀ e, alookup name st.cache = some e →
      ∃ e2, alookup name (getCategoryAllItems name st).2.1.cache = some e2 ∧
        e2.value = e.value ∧ e2.displayName = e.displayName) := by
  rcases h2 : alookup name st.cache with _ | e
  · simp only [getCategoryAllItems, cacheContains, h2]
    rcases h3 : readCategoryVal st.storage name with _ | cat
    · simp
    · rcases h4 : cacheUpdate name cat none { st with cacheMiss := st.cacheMiss + 1 } with e2 | st2
      · simp [h4]
      · simp [h4]
        simpa using cacheUpdate_storage h4
  · simp only [getCategoryAllItems, cacheContains, h2, if_true, alookup_aset_self]
    refine ⟨trivial, trivial, ?_⟩
    intro e3 he3
    injection he3 with he3
    subst he3
    exact ⟨_, rfl, rfl, rfl⟩

theorem bulkCollect_all_none {catInfo : List (String × EVal)} :
    ∀ {items : List (String × EVal)},
      (∀ p ∈ items, bulkCheckItem catInfo p.1 p.2 = .ok none) →
      bulkCollect catInfo items = .ok ([], []) := by
  intro items
  induction items with
  | nil => intro _; rfl
  | cons p t ih =>
    intro h
    obtain ⟨n, v⟩ := p
    have h1 := h (n, v) (by simp)
    simp only [bulkCollect, h1, ih (fun p hp => h p (List.mem_cons_of_mem _ hp))]

/-- C10: when every supplied item validates, cleans and equals the current
stored value, `update_configuration_item_bulk` returns without any storage
write, audit record or callback run, leaving the storage and the cached
value and display name of the category unchanged. -/
theorem C10_bulk_noop_when_all_equal (st : CMState) (name : String)
    (items : List (String × EVal)) (catInfo : List (String × EVal))
    (hget : (getCategoryAllItems name st).1 = .ok (some (.dict catInfo)))
    (hall : ∀ p ∈ items, bulkCheckItem catInfo p.1 p.2 = .ok none) :
    (updateConfigurationItemBulk name items st).1 = .ok () ∧
    (updateConfigurationItemBulk name items st).2.2 = [] ∧
    (updateConfigurationItemBulk name items st).2.1.storage = st.storage ∧
    (∀ e, alookup name st.cache = some e →
      ∃ e2, alookup name (updateConfigurationItemBulk name items st).2.1.cache = some e2 ∧
        e2.value = e.value ∧ e2.displayName = e.displayName) := by
  obtain ⟨hf1, hf2, hf3⟩ := getCategoryAllItems_frame name st
  have hcoll := bulkCollect_all_none hall
  rcases hG : getCategoryAllItems name st with ⟨r, st1, effs0⟩
  rw [hG] at hget hf1 hf2 hf3
  simp only at hget hf1 hf2 hf3
  subst hget
  subst hf1
  simp only [updateConfigurationItemBulk, hG, hcoll]
  simp
  exact ⟨hf2, hf3⟩

/-- The C10 witness state: category `X` both in storage and in the
cache. -/
def stateXC : CMState :=
  { stateX with cache := [("X", ⟨some 3, .dict [("info", .dict [("description", .str "d"),
      ("type", .str "integer"), ("default", .str "5"), ("value", .str "5")])], "X", none⟩)] }

/-- Witness for C10: a bulk update supplying the current value is a
complete no-op, with the cached entry intact. -/
theorem C10_witness :
    (updateConfigurationItemBulk "X" [("info", .str "5")] stateXC).1 = .ok () ∧
    (updateConfigurationItemBulk "X" [("info", .str "5")] stateXC).2.2 = [] ∧
    (updateConfigurationItemBulk "X" [("info", .str "5")] stateXC).2.1.storage
      = stateXC.storage ∧
    (∃ e2, alookup "X" (updateConfigurationItemBulk "X" [("info", .str "5")] stateXC).2.1.cache
      = some e2 ∧
      e2.value = .dict [("info", .dict [("description", .str "d"), ("type", .str "integer"),
        ("default", .str "5"), ("value", .str "5")])] ∧
      e2.displayName = "X") := by
  have h := C10_bulk_noop_when_all_equal stateXC "X" [("info", .str "5")]
    [("info", .dict [("description", .str "d"), ("type", .str "integer"),
      ("default", .str "5"), ("value", .str "5")])]
    rfl (by intro p hp; fin_cases hp; rfl)
  exact ⟨h.1, h.2.1, h.2.2.1, h.2.2.2 _ rfl⟩

/-! ### Re-validation lemmas for C7 -/

theorem checkEntries_ok_entry {f : Bool} {item : List (String × EVal)} :
    ∀ {l : List (String × EVal)}, checkEntries f item l = .ok () →
      ∀ p ∈ l, checkEntry f item p.1 p.2 = .ok () := by
  intro l
  induction l with
  | nil => intro _ p hp; simp at hp
  | cons q t ih =>
    intro h p hp
    obtain ⟨n, v⟩ := q
    rcases h1 : checkEntry f item n v with e | u
    · simp [checkEntries, h1] at h
    · simp only [checkEntries, h1] at h
      rcases List.mem_cons.mp hp with hp | hp
      · subst hp
        exact h1
      · exact ih h p hp

theorem checkEntryShape_str {isEnum : Bool} {item : List (String × EVal)}
    {k : String} {v : EVal} (hko : k ≠ "options")
    (h : checkEntryShape isEnum item k v = .ok ()) : ∃ s, v = .str s := by
  unfold checkEntryShape at h
  repeat' split at h
  all_goals first
  | exact ⟨_, rfl⟩
  | simp at h

theorem checkEntryOptional_boolean {k : String} {s : String}
    (hk : k = "readonly" ∨ k = "deprecated")
    (h : checkEntryOptional k (.str s) = .ok ()) :
    pyLower s = "true" ∨ pyLower s = "false" := by
  have hopt : k ∈ optionalItemEntries := by
    rcases hk with hk | hk <;> subst hk <;> decide
  unfold checkEntryOptional at h
  rw [if_pos hopt, if_pos hk] at h
  rcases h2 : validateTypeValue (.str "boolean") (.str s) with b | a | _ | _ <;>
    rw [h2] at h
  · rcases b with _ | _
    · simp at h
    · simp only [validateTypeValue, reduceIte] at h2
      simp at h2
      rcases h2 with h2 | h2
      · exact Or.inl h2
      · exact Or.inr h2
  · simp [validateTypeValue] at h2
  · simp [validateTypeValue] at h2
  · simp at h

theorem checkEntry_boolean_opt {f : Bool} {item : List (String × EVal)}
    {k : String} {v : EVal}
    (hk : k = "readonly" ∨ k = "deprecated")
    (h : checkEntry f item k v = .ok ()) :
    ∃ s, v = .str s ∧ (pyLower s = "true" ∨ pyLower s = "false") := by
  have hko : k ≠ "options" := by rcases hk with hk | hk <;> subst hk <;> decide
  simp only [checkEntry] at h
  rcases h1 : checkEntryShape (alookup "type" item == some (.str "enumeration")) item k v
    with e | u
  · rw [h1] at h; simp at h
  · rw [h1] at h
    obtain ⟨s, hs⟩ := checkEntryShape_str hko h1
    subst hs
    rcases h2 : checkEntryOptional k (.str s) with e | u2
    · rw [h2] at h; simp at h
    · exact ⟨s, rfl, checkEntryOptional_boolean hk h2⟩

theorem cleanBooleanEntry_ok {k : String} {item item2 : List (String × EVal)}
    (h : cleanBooleanEntry k item = .ok item2) :
    (alookup k item = none ∧ item2 = item) ∨
    (∃ s, alookup k item = some (.str s) ∧ item2 = aset k (.str (pyLower s)) item) := by
  unfold cleanBooleanEntry at h
  rcases h1 : alookup k item with _ | v <;> rw [h1] at h
  · simp at h
    exact Or.inl ⟨rfl, h.symm⟩
  · rcases v with s | l | _ | d
    · simp only [pyClean, reduceIte] at h
      simp at h
      exact Or.inr ⟨s, rfl, h.symm⟩
    · simp [pyClean] at h
    · simp [pyClean] at h
    · simp [pyClean] at h

/-- A boolean-typed optional entry whose value is already lowercased
`true`/`false` is left unchanged by the cleaning pass. -/
theorem cleanBooleanEntry_id {k : String} {item : List (String × EVal)}
    (h : alookup k item = none ∨
      ∃ s, alookup k item = some (.str s) ∧ pyLower s = s) :
    cleanBooleanEntry k item = .ok item := by
  unfold cleanBooleanEntry
  rcases h with h | ⟨s, h, hs⟩
  · rw [h]
  · rw [h]
    simp only [pyClean, reduceIte]
    rw [hs, aset_self_of_alookup h]

theorem pyLower_fixed_of_tf {s : String}
    (h : pyLower s = "true" ∨ pyLower s = "false") : pyLower (pyLower s) = pyLower s := by
  rcases h with h | h <;> rw [h] <;> rfl

/-- A boolean-typed optional entry of an item dict is absent or already a
lowercase-fixed string. -/
def boolEntryFixed (k : String) (o : List (String × EVal)) : Prop :=
  alookup k o = none ∨ ∃ s, alookup k o = some (.str s) ∧ pyLower s = s

theorem cleanItemEntries_true_out {tv out : EVal} {item : List (String × EVal)}
    (hce : checkEntries true item item = .ok ())
    (h : cleanItemEntries true tv item = .ok out) :
    ∃ o, out = .dict o ∧ boolEntryFixed "readonly" o ∧ boolEntryFixed "deprecated" o := by
  simp only [cleanItemEntries] at h
  rcases h1 : cleanBooleanEntry "readonly" item with e | item2 <;> simp only [h1] at h
  · simp at h
  rcases h2 : cleanBooleanEntry "deprecated" item2 with e | item3 <;> simp only [h2] at h
  · simp at h
  rcases h3 : pyClean tv ((alookup "default" item3).getD .pyNone) with e | d2 <;>
    simp only [h3] at h <;> simp at h
  refine ⟨_, h.symm, ?_, ?_⟩
  -- lookups of the two boolean entries pass through the value/default asets
  · have hro3 : alookup "readonly" item3 = alookup "readonly" item2 := by
      rcases cleanBooleanEntry_ok h2 with ⟨_, he⟩ | ⟨s, _, he⟩
      · rw [he]
      · rw [he, alookup_aset_ne (by decide)]
    have hfix : boolEntryFixed "readonly" item2 := by
      rcases cleanBooleanEntry_ok h1 with ⟨hn, he⟩ | ⟨s, hs, he⟩
      · exact Or.inl (by rw [he, hn])
      · subst he
        have hitem : alookup "readonly" item = some (.str s) := hs
        obtain ⟨s2, hv, htf⟩ := checkEntry_boolean_opt (Or.inl rfl)
          (checkEntries_ok_entry hce _ (alookup_mem hitem))
        have hv2 : s = s2 := by injection hv
        subst hv2
        exact Or.inr ⟨pyLower s, alookup_aset_self .., pyLower_fixed_of_tf htf⟩
    unfold boolEntryFixed at hfix ⊢
    rw [alookup_aset_ne (by decide), alookup_aset_ne (by decide), hro3]
    exact hfix
  · have hd2 : alookup "deprecated" item2 = alookup "deprecated" item := by
      rcases cleanBooleanEntry_ok h1 with ⟨_, he⟩ | ⟨s, _, he⟩
      · rw [he]
      · rw [he, alookup_aset_ne (by decide)]
    have hfix : boolEntryFixed "deprecated" item3 := by
      rcases cleanBooleanEntry_ok h2 with ⟨hn, he⟩ | ⟨s, hs, he⟩
      · exact Or.inl (by rw [he, hn])
      · subst he
        have hitem : alookup "deprecated" item = some (.str s) := by rw [← hd2]; exact hs
        obtain ⟨s2, hv, htf⟩ := checkEntry_boolean_opt (Or.inr rfl)
          (checkEntries_ok_entry hce _ (alookup_mem hitem))
        have hv2 : s = s2 := by injection hv
        subst hv2
        exact Or.inr ⟨pyLower s, alookup_aset_self .., pyLower_fixed_of_tf htf⟩
    unfold boolEntryFixed at hfix ⊢
    rw [alookup_aset_ne (by decide), alookup_aset_ne (by decide)]
    exact hfix

theorem validateItem_true_out {iv out : EVal} (h : validateItem true iv = .ok out) :
    ∃ o, out = .dict o ∧ boolEntryFixed "readonly" o ∧ boolEntryFixed "deprecated" o := by
  rcases iv with s | l | _ | item
  · simp [validateItem] at h
  · simp [validateItem] at h
  · simp [validateItem] at h
  · simp only [validateItem] at h
    rcases hce : checkEntries true item item with e | u <;> rw [hce] at h
    · simp at h
    · rcases hfk : (requiredEntryKeys true).find? (fun k => (alookup k item).isNone)
        with _ | k <;> rw [hfk] at h
      swap
      · simp at h
      rcases hvt : validateTypeValue ((alookup "type" item).getD .pyNone)
          ((alookup "default" item).getD .pyNone) with b | a | _ | _ <;> rw [hvt] at h
      case pyRaise => simp at h
      case pyBool =>
        rcases b with _ | _
        · simp at h
        · exact cleanItemEntries_true_out hce h
      case pyAddr => exact cleanItemEntries_true_out hce h
      case pyNone => exact cleanItemEntries_true_out hce h


/-! ### Round-trip of the float printer through the float parser -/

theorem isDigit_ofNat_of_lt {m : Nat} (h : m < 10) : (Char.ofNat (48 + m)).isDigit = true := by
  interval_cases m <;> decide

theorem isDigit_val {c : Char} (h : c.isDigit = true) : 48 ≤ c.toNat ∧ c.toNat ≤ 57 := by
  simp [Char.isDigit] at h
  exact h

theorem not_ws_of_isDigit {c : Char} (h : c.isDigit = true) : isWsChar c = false := by
  obtain ⟨h1, h2⟩ := isDigit_val h
  simp only [isWsChar, Bool.or_eq_false_iff, decide_eq_false_iff_not]
  refine ⟨⟨⟨?_, ?_⟩, ?_⟩, ?_⟩ <;> intro he <;> subst he <;> exact absurd h1 (by decide)

theorem dropWhile_eq_self_of {p : Char → Bool} :
    ∀ {l : List Char}, (∀ c ∈ l, p c = false) → l.dropWhile p = l := by
  intro l h
  cases l with
  | nil => rfl
  | cons c t => simp [List.dropWhile, h c (by simp)]

theorem trimWs_eq_self {cs : List Char} (h : ∀ c ∈ cs, isWsChar c = false) :
    trimWs cs = cs := by
  unfold trimWs
  rw [dropWhile_eq_self_of h, dropWhile_eq_self_of (by intro c hc; exact h c (by simpa using hc)),
    List.reverse_reverse]

theorem spanDigits_append {ds : List Char} (rest : List Char)
    (h : ∀ c ∈ ds, c.isDigit = true) :
    spanDigits (ds ++ rest) = (ds ++ (spanDigits rest).1, (spanDigits rest).2) := by
  induction ds with
  | nil => simp [spanDigits]
  | cons c t ih =>
    have hc : c.isDigit = true := h c (by simp)
    have ht : ∀ c2 ∈ t, c2.isDigit = true := fun c2 hc2 => h c2 (by simp [hc2])
    simp [List.cons_append, spanDigits, hc, ih ht]

theorem spanDigits_cons_not {c : Char} (t : List Char) (h : c.isDigit = false) :
    spanDigits (c :: t) = ([], c :: t) := by
  simp [spanDigits, h]

theorem spanDigits_all {ds : List Char} (h : ∀ c ∈ ds, c.isDigit = true) :
    spanDigits ds = (ds, []) := by
  have h2 := spanDigits_append ([] : List Char) (h := h)
  simpa [spanDigits] using h2

theorem parseSign_not {cs : List Char}
    (h : ∀ t, cs ≠ '-' :: t ∧ cs ≠ '+' :: t) : parseSign cs = (false, cs) := by
  unfold parseSign
  split
  · exact absurd rfl (h _).1
  · exact absurd rfl (h _).2
  · rfl

theorem parseSign_digit {c : Char} {t : List Char} (h : c.isDigit = true) :
    parseSign (c :: t) = (false, c :: t) := by
  apply parseSign_not
  intro t2
  constructor <;> intro he <;> rw [List.cons.injEq] at he <;> rw [he.1] at h <;> simp at h

theorem parseFrac_dot (t : List Char) : parseFrac ('.' :: t) = spanDigits t := rfl

/-- A character list of the shape `[sign]digits.digits` (with at least one
mantissa digit) is accepted by `pyParseFloat`. -/
theorem pyParseFloat_shape (sgn : Bool) (ip fp : List Char)
    (hip : ∀ c ∈ ip, c.isDigit = true) (hfp : ∀ c ∈ fp, c.isDigit = true)
    (hne : ip ≠ [] ∨ fp ≠ []) :
    (pyParseFloat (String.mk ((if sgn then ['-'] else []) ++ (ip ++ '.' :: fp)))).isSome := by
  have hnws : ∀ c ∈ (if sgn then ['-'] else []) ++ (ip ++ '.' :: fp), isWsChar c = false := by
    intro c hc
    rcases List.mem_append.mp hc with hc | hc
    · rcases sgn <;> simp at hc
      subst hc; decide
    · rcases List.mem_append.mp hc with hc | hc
      · exact not_ws_of_isDigit (hip c hc)
      · rcases List.mem_cons.mp hc with hc | hc
        · subst hc; decide
        · exact not_ws_of_isDigit (hfp c hc)
  have hspan : spanDigits (ip ++ '.' :: fp) = (ip, '.' :: fp) := by
    rw [spanDigits_append _ hip, spanDigits_cons_not _ (by decide)]
    simp
  have hspanfp : spanDigits fp = (fp, []) := spanDigits_all hfp
  have hsign : parseSign (ip ++ '.' :: fp) = (false, ip ++ '.' :: fp) := by
    rcases ip with _ | ⟨c, t⟩
    · rfl
    · exact parseSign_digit (hip c (by simp))
  unfold pyParseFloat
  rw [show (String.mk ((if sgn then ['-'] else []) ++ (ip ++ '.' :: fp))).data =
      (if sgn then ['-'] else []) ++ (ip ++ '.' :: fp) from rfl, trimWs_eq_self hnws]
  have hguard : ¬(ip = [] ∧ fp = []) := by
    rcases hne with h | h <;> intro hc
    · exact h hc.1
    · exact h hc.2
  rcases sgn with _ | _
  · simp only [Bool.false_eq_true, if_false, List.nil_append]
    rw [hsign, hspan, parseFrac_dot, hspanfp]
    simp [hguard]
  · simp only [if_true, List.singleton_append]
    rw [show parseSign ('-' :: (ip ++ '.' :: fp)) = (true, ip ++ '.' :: fp) from rfl,
      hspan, parseFrac_dot, hspanfp]
    simp [hguard]

theorem natDigitsF_digits : ∀ (fuel n : Nat), ∀ c ∈ natDigitsF fuel n, c.isDigit = true := by
  intro fuel
  induction fuel with
  | zero => intro n c hc; simp [natDigitsF] at hc
  | succ f ih =>
    intro n c hc
    simp only [natDigitsF] at hc
    split at hc
    · simp at hc; subst hc
      exact isDigit_ofNat_of_lt (by assumption)
    · rcases List.mem_append.mp hc with hc | hc
      · exact ih _ _ hc
      · simp at hc; subst hc
        exact isDigit_ofNat_of_lt (Nat.mod_lt _ (by norm_num))

theorem pyFloatReprCore_parses {neg : Bool} {digits : List Char} {e : Int}
    (h : ∀ c ∈ digits, c.isDigit = true) :
    (pyParseFloat (pyFloatReprCore neg digits e)).isSome := by
  have hip1 : ∀ c ∈ digits ++ List.replicate e.toNat '0', c.isDigit = true := by
    intro c hc
    rcases List.mem_append.mp hc with hc | hc
    · exact h c hc
    · rw [List.eq_of_mem_replicate hc]; decide
  have hfp1 : ∀ c ∈ ['0'], c.isDigit = true := by
    intro c hc; simp at hc; subst hc; decide
  have hip2 : ∀ c ∈ digits.take (digits.length - (-e).toNat), c.isDigit = true :=
    fun c hc => h c ((List.take_sublist _ _).subset hc)
  have hfp2 : ∀ c ∈ digits.drop (digits.length - (-e).toNat), c.isDigit = true :=
    fun c hc => h c ((List.drop_sublist _ _).subset hc)
  have hfp3 : ∀ c ∈ List.replicate ((-e).toNat - digits.length) '0' ++ digits,
      c.isDigit = true := by
    intro c hc
    rcases List.mem_append.mp hc with hc | hc
    · rw [List.eq_of_mem_replicate hc]; decide
    · exact h c hc
  rcases neg with _ | _ <;> simp only [pyFloatReprCore, reduceIte] <;> split
  · exact pyParseFloat_shape false _ ['0'] hip1 hfp1 (Or.inr (by simp))
  · split
    · next hlt =>
      refine pyParseFloat_shape false _ _ hip2 hfp2 (Or.inl (List.length_pos.mp ?_))
      rw [List.length_take]
      omega
    · exact pyParseFloat_shape false ['0'] _ hfp1 hfp3 (Or.inl (by simp))
  · exact pyParseFloat_shape true _ ['0'] hip1 hfp1 (Or.inr (by simp))
  · split
    · next hlt =>
      refine pyParseFloat_shape true _ _ hip2 hfp2 (Or.inl (List.length_pos.mp ?_))
      rw [List.length_take]
      omega
    · exact pyParseFloat_shape true ['0'] _ hfp1 hfp3 (Or.inl (by simp))

/-- Every string `pyFloatRepr` prints is accepted back by `pyParseFloat`:
the model of `float(str(float(x)))` never raises. -/
theorem pyFloatRepr_parses (d : Dec) : (pyParseFloat (pyFloatRepr d)).isSome := by
  unfold pyFloatRepr
  split
  · decide
  · refine pyFloatReprCore_parses (fun c hc => ?_)
    have hc2 : c ∈ (natDigits d.mant.natAbs).reverse :=
      (List.dropWhile_sublist _).subset (by simpa using hc)
    exact natDigitsF_digits _ _ c (by simpa using hc2)

/-! ### Re-validation of a validated item -/

theorem mem_aset {α : Type} {p : String × α} {k : String} {v : α} :
    ∀ {l : List (String × α)}, p ∈ aset k v l → p = (k, v) ∨ p ∈ l := by
  intro l
  induction l with
  | nil => intro h; simp [aset] at h; exact Or.inl h
  | cons q t ih =>
    intro h
    simp only [aset] at h
    split at h
    · rcases List.mem_cons.mp h with h | h
      · exact Or.inl h
      · exact Or.inr (List.mem_cons_of_mem _ h)
    · rcases List.mem_cons.mp h with h | h
      · exact Or.inr (h ▸ List.mem_cons_self _ _)
      · rcases ih h with h | h
        · exact Or.inl h
        · exact Or.inr (List.mem_cons_of_mem _ h)

theorem checkEntries_of_forall {f : Bool} {item : List (String × EVal)} :
    ∀ {l : List (String × EVal)}, (∀ p ∈ l, checkEntry f item p.1 p.2 = .ok ()) →
      checkEntries f item l = .ok () := by
  intro l
  induction l with
  | nil => intro _; rfl
  | cons p t ih =>
    intro h
    rcases p with ⟨k, v⟩
    simp only [checkEntries]
    rw [h (k, v) (List.mem_cons_self _ _)]
    exact ih (fun q hq => h q (List.mem_cons_of_mem _ hq))

theorem checkEntryShape_congr {o item : List (String × EVal)} {b : Bool} {k : String}
    {v : EVal}
    (hopt : alookup "options" o = alookup "options" item)
    (hdef : b = true → alookup "default" o = alookup "default" item) :
    checkEntryShape b o k v = checkEntryShape b item k v := by
  unfold checkEntryShape
  rcases b with _ | _
  · rfl
  · simp only [reduceIte]
    rw [hopt, hdef rfl]

theorem checkEntryTail_false_of_true {b : Bool} {k : String} {v : EVal}
    (h : checkEntryTail true b k v = .ok ()) : checkEntryTail false b k v = .ok () := by
  unfold checkEntryTail at h ⊢
  split at h
  · simp at h
  · next hnv =>
    have hkv : ¬k = "value" := fun hc => hnv ⟨rfl, hc⟩
    rw [if_neg (fun hc => by simp at hc)]
    split at h
    · simp at h
    · next hrec =>
      rw [if_neg (fun hc => hrec (fun hd => hc (by tauto)))]
      exact h

theorem checkEntry_false_of_true {o item : List (String × EVal)} {k : String} {v : EVal}
    (htype : alookup "type" o = alookup "type" item)
    (hopt : alookup "options" o = alookup "options" item)
    (hdef : (alookup "type" item == some (.str "enumeration")) = true →
      alookup "default" o = alookup "default" item)
    (h : checkEntry true item k v = .ok ()) :
    checkEntry false o k v = .ok () := by
  unfold checkEntry at h ⊢
  rw [htype, checkEntryShape_congr hopt hdef]
  rcases h1 : checkEntryShape (alookup "type" item == some (.str "enumeration")) item k v
    with e | u
  · simp only [h1] at h
    simp at h
  · simp only [h1] at h ⊢
    rcases h2 : checkEntryOptional k v with e | u2
    · simp only [h2] at h
      simp at h
    · simp only [h2] at h ⊢
      exact checkEntryTail_false_of_true h

theorem checkEntry_new_str {o : List (String × EVal)} {k : String} {s : String}
    (hk : k = "value" ∨ k = "default")
    (hopts : (alookup "type" o == some (.str "enumeration")) = true →
      (alookup "options" o).isSome) :
    checkEntry false o k (.str s) = .ok () := by
  have hko : k ≠ "options" := by rcases hk with hk | hk <;> subst hk <;> decide
  have hshape : checkEntryShape (alookup "type" o == some (.str "enumeration")) o
      k (.str s) = .ok () := by
    unfold checkEntryShape
    rcases hb : (alookup "type" o == some (.str "enumeration")) with _ | _
    · simp
    · have := hopts hb
      simp only [reduceIte]
      rw [if_neg (by simp [Option.isNone_iff_eq_none]; intro hc; rw [hc] at this; simp at this)]
      rw [if_neg hko]
  have hoptional : checkEntryOptional k (.str s) = .ok () := by
    unfold checkEntryOptional
    rcases hk with hk | hk <;> subst hk <;> rw [if_neg (by decide)]
  unfold checkEntry
  simp only [hshape, hoptional]
  unfold checkEntryTail
  rcases hk with hk | hk <;> subst hk
  · rw [if_neg (by simp),
      if_neg (not_not_intro (Or.inr (Or.inl (by simp)))), if_neg (by decide)]
  · rw [if_neg (by simp),
      if_neg (not_not_intro (Or.inl (by simp))), if_neg (by decide)]

theorem checkEntry_bool_entry {o : List (String × EVal)} {k : String} {s : String}
    (hk : k = "readonly" ∨ k = "deprecated")
    (htf : pyLower s = "true" ∨ pyLower s = "false")
    (hopts : (alookup "type" o == some (.str "enumeration")) = true →
      (alookup "options" o).isSome) :
    checkEntry false o k (.str s) = .ok () := by
  have hko : k ≠ "options" := by rcases hk with hk | hk <;> subst hk <;> decide
  have hshape : checkEntryShape (alookup "type" o == some (.str "enumeration")) o
      k (.str s) = .ok () := by
    unfold checkEntryShape
    rcases hb : (alookup "type" o == some (.str "enumeration")) with _ | _
    · simp
    · have := hopts hb
      simp only [reduceIte]
      rw [if_neg (by simp [Option.isNone_iff_eq_none]; intro hc; rw [hc] at this; simp at this)]
      rw [if_neg hko]
  have hvb : validateTypeValue (.str "boolean") (.str s) = .pyBool true := by
    unfold validateTypeValue
    rw [if_pos rfl]
    rcases htf with htf | htf <;> simp [htf]
  have hoptional : checkEntryOptional k (.str s) = .ok () := by
    unfold checkEntryOptional
    rw [if_pos (by rcases hk with hk | hk <;> subst hk <;> decide),
      if_pos (by rcases hk with hk | hk <;> [left; right] <;> exact hk), hvb]
  unfold checkEntry
  simp only [hshape, hoptional]
  unfold checkEntryTail
  rcases hk with hk | hk <;> subst hk
  · rw [if_neg (by simp),
      if_neg (not_not_intro (Or.inr (Or.inr (Or.inl (by simp [optionalItemEntries]))))),
      if_neg (by decide)]
  · rw [if_neg (by simp),
      if_neg (not_not_intro (Or.inr (Or.inr (Or.inl (by simp [optionalItemEntries]))))),
      if_neg (by decide)]

theorem pyClean_str {tv dv d2 : EVal} (h : pyClean tv dv = .ok d2)
    (hdv : ∃ s, dv = .str s) : ∃ s, d2 = .str s := by
  unfold pyClean at h
  split at h
  · rcases dv with s | _ | _ | _ <;> simp at h
    exact ⟨_, h.symm⟩
  · split at h
    · rcases dv with s | _ | _ | _ <;> simp at h
      rcases h2 : pyParseFloat s with _ | f <;> rw [h2] at h <;> simp at h
      exact ⟨_, h.symm⟩
    · simp at h
      obtain ⟨s, hs⟩ := hdv
      exact ⟨s, by rw [← h, hs]⟩

theorem pyClean_id_of_ne {tv dv : EVal} (h1 : tv ≠ .str "boolean")
    (h2 : tv ≠ .str "float") : pyClean tv dv = .ok dv := by
  unfold pyClean
  rw [if_neg h1, if_neg h2]

theorem optEVal_beq_eq {a : Option EVal} {b : EVal} (h : (a == some b) = true) :
    a = some b := by
  rcases a with _ | v
  · have h2 : (false : Bool) = true := h
    simp at h2
  · have h2 : EVal.beq v b = true := h
    rw [EVal.beq_eq v b h2]

theorem checkEntry_str {f : Bool} {item : List (String × EVal)} {k : String} {v : EVal}
    (hko : k ≠ "options") (h : checkEntry f item k v = .ok ()) : ∃ s, v = .str s := by
  unfold checkEntry at h
  rcases h1 : checkEntryShape (alookup "type" item == some (.str "enumeration")) item k v
    with e | u
  · rw [h1] at h; simp at h
  · exact checkEntryShape_str hko h1

/-- An item accepted by the create-path validation (`set_default_for_all`)
passes the update-path validation unchanged: re-validating the output is
the identity. -/
theorem validateItem_false_of_true {iv out : EVal} (h : validateItem true iv = .ok out) :
    validateItem false out = .ok out := by
  rcases iv with s | l | _ | item
  · simp [validateItem] at h
  · simp [validateItem] at h
  · simp [validateItem] at h
  simp only [validateItem] at h
  rcases hce : checkEntries true item item with e | u <;> rw [hce] at h
  · simp at h
  rcases hfk : (requiredEntryKeys true).find? (fun k => (alookup k item).isNone)
      with _ | k0 <;> rw [hfk] at h
  case some => simp at h
  have hpres : ∀ k2 ∈ requiredEntryKeys true, alookup k2 item ≠ none := by
    intro k2 hk2
    have h5 := List.find?_eq_none.mp hfk k2 hk2
    simpa using h5
  have hdesc : alookup "description" item ≠ none :=
    hpres _ (by simp [requiredEntryKeys])
  have hdef0 : alookup "default" item ≠ none :=
    hpres _ (by simp [requiredEntryKeys])
  have htype0 : alookup "type" item ≠ none :=
    hpres _ (by simp [requiredEntryKeys])
  obtain ⟨dvE, hdvE⟩ : ∃ v, alookup "default" item = some v := by
    rcases hd : alookup "default" item with _ | v
    · exact absurd hd hdef0
    · exact ⟨v, rfl⟩
  have key : cleanItemEntries true ((alookup "type" item).getD .pyNone) item = .ok out ∧
      validateTypeValue ((alookup "type" item).getD .pyNone)
        ((alookup "default" item).getD .pyNone) ≠ .pyBool false ∧
      validateTypeValue ((alookup "type" item).getD .pyNone)
        ((alookup "default" item).getD .pyNone) ≠ .pyRaise := by
    rcases hvt : validateTypeValue ((alookup "type" item).getD .pyNone)
        ((alookup "default" item).getD .pyNone) with b | a | _ | _ <;> rw [hvt] at h
    · rcases b with _ | _
      · simp at h
      · exact ⟨h, by simp, by simp⟩
    · exact ⟨h, by simp, by simp⟩
    · exact ⟨h, by simp, by simp⟩
    · simp at h
  obtain ⟨hclean, hvF, hvR⟩ := key
  have hcleanO := hclean
  simp only [cleanItemEntries] at hclean
  rcases h1 : cleanBooleanEntry "readonly" item with e | item2 <;> simp only [h1] at hclean
  · simp at hclean
  rcases h2 : cleanBooleanEntry "deprecated" item2 with e | item3 <;>
    simp only [h2] at hclean
  · simp at hclean
  rcases h3 : pyClean ((alookup "type" item).getD .pyNone)
      ((alookup "default" item3).getD .pyNone) with e | d2 <;>
    simp only [h3] at hclean <;> simp at hclean
  subst hclean
  obtain ⟨o2, hout, hfr, hfd⟩ := cleanItemEntries_true_out hce hcleanO
  have ho2 : o2 = aset "value" d2 (aset "default" d2 item3) := by
    injection hout.symm
  subst ho2
  -- lookups of unmodified keys pass through all four asets
  have hd2l : alookup "deprecated" item2 = alookup "deprecated" item := by
    rcases cleanBooleanEntry_ok h1 with ⟨_, he⟩ | ⟨s, _, he⟩
    · rw [he]
    · rw [he, alookup_aset_ne (by decide)]
  have hlook : ∀ k2 : String, k2 ≠ "value" → k2 ≠ "default" → k2 ≠ "readonly" →
      k2 ≠ "deprecated" →
      alookup k2 (aset "value" d2 (aset "default" d2 item3)) = alookup k2 item := by
    intro k2 q1 q2 q3 q4
    rw [alookup_aset_ne (Ne.symm q1), alookup_aset_ne (Ne.symm q2)]
    have e3 : alookup k2 item3 = alookup k2 item2 := by
      rcases cleanBooleanEntry_ok h2 with ⟨_, he⟩ | ⟨s, _, he⟩
      · rw [he]
      · rw [he, alookup_aset_ne (Ne.symm q4)]
    have e2 : alookup k2 item2 = alookup k2 item := by
      rcases cleanBooleanEntry_ok h1 with ⟨_, he⟩ | ⟨s, _, he⟩
      · rw [he]
      · rw [he, alookup_aset_ne (Ne.symm q3)]
    rw [e3, e2]
  have htype : alookup "type" (aset "value" d2 (aset "default" d2 item3)) =
      alookup "type" item :=
    hlook _ (by decide) (by decide) (by decide) (by decide)
  have hopts : alookup "options" (aset "value" d2 (aset "default" d2 item3)) =
      alookup "options" item :=
    hlook _ (by decide) (by decide) (by decide) (by decide)
  have hdesc2 : alookup "description" (aset "value" d2 (aset "default" d2 item3)) =
      alookup "description" item :=
    hlook _ (by decide) (by decide) (by decide) (by decide)
  have hdefo : alookup "default" (aset "value" d2 (aset "default" d2 item3)) = some d2 := by
    rw [alookup_aset_ne (by decide)]
    exact alookup_aset_self ..
  have hvalo : alookup "value" (aset "value" d2 (aset "default" d2 item3)) = some d2 :=
    alookup_aset_self ..
  have hd3 : alookup "default" item3 = some dvE := by
    have e3 : alookup "default" item3 = alookup "default" item2 := by
      rcases cleanBooleanEntry_ok h2 with ⟨_, he⟩ | ⟨s, _, he⟩
      · rw [he]
      · rw [he, alookup_aset_ne (by decide)]
    have e2 : alookup "default" item2 = alookup "default" item := by
      rcases cleanBooleanEntry_ok h1 with ⟨_, he⟩ | ⟨s, _, he⟩
      · rw [he]
      · rw [he, alookup_aset_ne (by decide)]
    rw [e3, e2, hdvE]
  rw [hd3] at h3
  simp only [Option.getD_some] at h3
  simp only [hdvE, Option.getD_some] at hvF hvR
  have hdvEstr : ∃ s, dvE = .str s := by
    have hck : checkEntry true item "default" dvE = .ok () :=
      checkEntries_ok_entry hce _ (alookup_mem hdvE)
    exact checkEntry_str (by decide) hck
  have hd2str : ∃ s, d2 = .str s := pyClean_str h3 hdvEstr
  have hdef_enum : (alookup "type" item == some (.str "enumeration")) = true →
      alookup "default" (aset "value" d2 (aset "default" d2 item3)) =
        alookup "default" item := by
    intro hb
    have htving : alookup "type" item = some (.str "enumeration") :=
      optEVal_beq_eq hb
    have htv2 : (alookup "type" item).getD EVal.pyNone = .str "enumeration" := by
      rw [htving]; rfl
    have hid : pyClean ((alookup "type" item).getD .pyNone) dvE = .ok dvE :=
      pyClean_id_of_ne (by rw [htv2]; decide) (by rw [htv2]; decide)
    rw [hid] at h3
    have hd2v : d2 = dvE := by injection h3 with hq; exact hq.symm
    rw [hdefo, hdvE, hd2v]
  have hopts2 : (alookup "type" (aset "value" d2 (aset "default" d2 item3)) ==
      some (.str "enumeration")) = true →
      (alookup "options" (aset "value" d2 (aset "default" d2 item3))).isSome := by
    intro hb
    rw [htype] at hb
    obtain ⟨tvE, htvE⟩ : ∃ v, alookup "type" item = some v := by
      rcases hq : alookup "type" item with _ | v
      · rw [hq] at htype0; simp at htype0
      · exact ⟨v, rfl⟩
    have hck := checkEntries_ok_entry hce _ (alookup_mem htvE)
    unfold checkEntry at hck
    rcases hsh : checkEntryShape (alookup "type" item == some (.str "enumeration")) item
        "type" tvE with e | u
    · rw [hsh] at hck; simp at hck
    · rw [hopts]
      unfold checkEntryShape at hsh
      rw [hb] at hsh
      simp only [reduceIte] at hsh
      split at hsh
      · simp at hsh
      · next hnn =>
        simpa [Option.isSome_iff_ne_none, Option.isNone_iff_eq_none] using hnn
  have hvt2 : validateTypeValue ((alookup "type" item).getD .pyNone) d2 ≠ .pyBool false ∧
      validateTypeValue ((alookup "type" item).getD .pyNone) d2 ≠ .pyRaise := by
    by_cases hb : (alookup "type" item).getD EVal.pyNone = .str "boolean"
    · rw [hb] at h3 hvF hvR ⊢
      rcases dvE with s | l | _ | dd
      · have hd2v : d2 = .str (pyLower s) := by
          simp only [pyClean, reduceIte] at h3
          injection h3 with h4
          exact h4.symm
        have htf : pyLower s = "true" ∨ pyLower s = "false" := by
          simp only [validateTypeValue, reduceIte] at hvF
          by_contra hcon
          push_neg at hcon
          apply hvF
          simp [hcon.1, hcon.2]
        rw [hd2v]
        have hfix := pyLower_fixed_of_tf htf
        constructor <;> simp only [validateTypeValue, reduceIte] <;> intro hcontra
        · rcases htf with htf | htf <;> rw [hfix, htf] at hcontra <;> simp at hcontra
        · simp at hcontra
      · exact absurd (by simp [validateTypeValue]) hvR
      · exact absurd (by simp [validateTypeValue]) hvR
      · exact absurd (by simp [validateTypeValue]) hvR
    by_cases hf : (alookup "type" item).getD EVal.pyNone = .str "float"
    · rw [hf] at h3 hvF hvR ⊢
      rcases dvE with s | l | _ | dd
      · obtain ⟨ff, hff⟩ : ∃ ff, pyParseFloat s = some ff := by
          simp only [validateTypeValue, reduceIte] at hvF
          rcases hq : pyParseFloat s with _ | ff
          · exact absurd (by simp [hq]) hvF
          · exact ⟨ff, rfl⟩
        have hd2v : d2 = .str (pyFloatRepr ff) := by
          simp only [pyClean, reduceIte, hff] at h3
          injection h3 with h4
          exact h4.symm
        rw [hd2v]
        have hparse := pyFloatRepr_parses ff
        constructor <;> simp only [validateTypeValue, reduceIte] <;> intro hcontra
        · rw [show (pyParseFloat (pyFloatRepr ff)).isSome = true from hparse] at hcontra
          simp at hcontra
        · simp at hcontra
      · exact absurd (by simp [validateTypeValue]) hvR
      · exact absurd (by simp [validateTypeValue]) hvR
      · exact absurd (by simp [validateTypeValue]) hvR
    · rw [pyClean_id_of_ne hb hf] at h3
      have hd2v : d2 = dvE := by injection h3 with hq; exact hq.symm
      rw [hd2v]
      exact ⟨hvF, hvR⟩
  have hmem_flat : ∀ p ∈ item3,
      (∃ s, p = ("readonly", EVal.str (pyLower s)) ∧
        alookup "readonly" item = some (.str s)) ∨
      (∃ s, p = ("deprecated", EVal.str (pyLower s)) ∧
        alookup "deprecated" item = some (.str s)) ∨
      p ∈ item := by
    intro p hp
    have hstep2 : (∃ s, p = ("deprecated", EVal.str (pyLower s)) ∧
        alookup "deprecated" item2 = some (.str s)) ∨ p ∈ item2 := by
      rcases cleanBooleanEntry_ok h2 with ⟨_, he⟩ | ⟨s, hs, he⟩
      · exact Or.inr (he ▸ hp)
      · subst he
        rcases mem_aset hp with hp | hp
        · exact Or.inl ⟨s, hp, hs⟩
        · exact Or.inr hp
    rcases hstep2 with ⟨s, hps, hs⟩ | hp2
    · rw [hd2l] at hs
      exact Or.inr (Or.inl ⟨s, hps, hs⟩)
    · rcases cleanBooleanEntry_ok h1 with ⟨_, he⟩ | ⟨s, hs, he⟩
      · exact Or.inr (Or.inr (he ▸ hp2))
      · subst he
        rcases mem_aset hp2 with hp2 | hp2
        · exact Or.inl ⟨s, hp2, hs⟩
        · exact Or.inr (Or.inr hp2)
  have hco : checkEntries false (aset "value" d2 (aset "default" d2 item3))
      (aset "value" d2 (aset "default" d2 item3)) = .ok () := by
    apply checkEntries_of_forall
    obtain ⟨s2, hs2⟩ := hd2str
    subst hs2
    intro p hp
    rcases mem_aset hp with hp | hp
    · rw [hp]
      exact checkEntry_new_str (Or.inl rfl) hopts2
    rcases mem_aset hp with hp | hp
    · rw [hp]
      exact checkEntry_new_str (Or.inr rfl) hopts2
    rcases hmem_flat p hp with ⟨s, hps, hs⟩ | ⟨s, hps, hs⟩ | hp
    · obtain ⟨s3, hv3, htf3⟩ := checkEntry_boolean_opt (Or.inl rfl)
        (checkEntries_ok_entry hce _ (alookup_mem hs))
      have hv4 : s = s3 := by injection hv3
      subst hv4
      rw [hps]
      refine checkEntry_bool_entry (Or.inl rfl) ?_ hopts2
      rw [pyLower_fixed_of_tf htf3]
      exact htf3
    · obtain ⟨s3, hv3, htf3⟩ := checkEntry_boolean_opt (Or.inr rfl)
        (checkEntries_ok_entry hce _ (alookup_mem hs))
      have hv4 : s = s3 := by injection hv3
      subst hv4
      rw [hps]
      refine checkEntry_bool_entry (Or.inr rfl) ?_ hopts2
      rw [pyLower_fixed_of_tf htf3]
      exact htf3
    · exact checkEntry_false_of_true htype hopts hdef_enum
        (checkEntries_ok_entry hce _ hp)
  have hfko : (requiredEntryKeys false).find?
      (fun k2 => (alookup k2 (aset "value" d2 (aset "default" d2 item3))).isNone) = none := by
    apply List.find?_eq_none.mpr
    intro k2 hk2
    simp only [requiredEntryKeys] at hk2
    simp at hk2
    rcases hk2 with rfl | rfl | rfl | rfl
    · simpa [hdesc2, Option.isNone_iff_eq_none] using hdesc
    · simp [hdefo]
    · simpa [htype, Option.isNone_iff_eq_none] using htype0
    · simp [hvalo]
  have hcleanF : cleanItemEntries false
      ((alookup "type" (aset "value" d2 (aset "default" d2 item3))).getD .pyNone)
      (aset "value" d2 (aset "default" d2 item3)) =
      .ok (.dict (aset "value" d2 (aset "default" d2 item3))) := by
    unfold cleanItemEntries
    simp [cleanBooleanEntry_id hfr, cleanBooleanEntry_id hfd]
  unfold validateItem
  simp only [hco, hfko]
  rw [htype, hdefo]
  simp only [Option.getD_some]
  rcases hvt3 : validateTypeValue ((alookup "type" item).getD .pyNone) d2 with b | a | _ | _
  · rcases b with _ | _
    · exact absurd hvt3 hvt2.1
    · rw [← htype] at hvt3
      simp only [hvt3]
      exact hcleanF
  · rw [← htype] at hvt3
    simp only [hvt3]
    exact hcleanF
  · rw [← htype] at hvt3
    simp only [hvt3]
    exact hcleanF
  · exact absurd hvt3 hvt2.2

theorem validateItems_false_of_true :
    ∀ {l l2 : List (String × EVal)}, validateItems true l = .ok l2 →
      validateItems false l2 = .ok l2 := by
  intro l
  induction l with
  | nil =>
    intro l2 h
    simp only [validateItems] at h
    injection h with h
    subst h
    rfl
  | cons p t ih =>
    intro l2 h
    rcases p with ⟨n, iv⟩
    simp only [validateItems] at h
    rcases hI : validateItem true iv with e | iv2 <;> simp only [hI] at h
    · simp at h
    rcases hR : validateItems true t with e | rest2 <;> simp only [hR] at h
    · simp at h
    simp only [Except.ok.injEq] at h
    subst h
    simp only [validateItems, validateItem_false_of_true hI, ih hR]

/-- A category value accepted by the create-path validation passes the
update-path validation unchanged. -/
theorem validateCategoryVal_false_of_true {v v2 : EVal}
    (h : validateCategoryVal v true = .ok v2) :
    validateCategoryVal v2 false = .ok v2 := by
  rcases v with s | l | _ | d
  · simp [validateCategoryVal] at h
  · simp [validateCategoryVal] at h
  · simp [validateCategoryVal] at h
  · simp only [validateCategoryVal] at h
    rcases hI : validateItems true d with e | d2 <;> simp only [hI] at h
    · simp at h
    simp only [Except.ok.injEq] at h
    subst h
    simp only [validateCategoryVal, validateItems_false_of_true hI]

theorem cleanItemEntries_true_value {tv out : EVal} {item : List (String × EVal)}
    (h : cleanItemEntries true tv item = .ok out) :
    ∃ o, out = .dict o ∧ (alookup "value" o).isSome := by
  simp only [cleanItemEntries] at h
  rcases h1 : cleanBooleanEntry "readonly" item with e | item2 <;> simp only [h1] at h
  · simp at h
  rcases h2 : cleanBooleanEntry "deprecated" item2 with e | item3 <;> simp only [h2] at h
  · simp at h
  rcases h3 : pyClean tv ((alookup "default" item3).getD .pyNone) with e | d2 <;>
    simp only [h3] at h <;> simp at h
  exact ⟨_, h.symm, by rw [alookup_aset_self]; rfl⟩

theorem validateItem_true_value {iv out : EVal} (h : validateItem true iv = .ok out) :
    ∃ o, out = .dict o ∧ (alookup "value" o).isSome := by
  rcases iv with s | l | _ | item
  · simp [validateItem] at h
  · simp [validateItem] at h
  · simp [validateItem] at h
  simp only [validateItem] at h
  rcases hce : checkEntries true item item with e | u <;> rw [hce] at h
  · simp at h
  rcases hfk : (requiredEntryKeys true).find? (fun k => (alookup k item).isNone)
      with _ | k0 <;> rw [hfk] at h
  case some => simp at h
  rcases hvt : validateTypeValue ((alookup "type" item).getD .pyNone)
      ((alookup "default" item).getD .pyNone) with b | a | _ | _ <;> rw [hvt] at h
  case pyRaise => simp at h
  case pyBool =>
    rcases b with _ | _
    · simp at h
    · exact cleanItemEntries_true_value h
  case pyAddr => exact cleanItemEntries_true_value h
  case pyNone => exact cleanItemEntries_true_value h

theorem validateItems_true_value :
    ∀ {l l2 : List (String × EVal)}, validateItems true l = .ok l2 →
      ∀ p ∈ l2, ∃ d, p.2 = EVal.dict d ∧ (alookup "value" d).isSome := by
  intro l
  induction l with
  | nil =>
    intro l2 h
    simp only [validateItems] at h
    injection h with h
    subst h
    intro p hp
    simp at hp
  | cons q t ih =>
    intro l2 h
    rcases q with ⟨n, iv⟩
    simp only [validateItems] at h
    rcases hI : validateItem true iv with e | iv2 <;> simp only [hI] at h
    · simp at h
    rcases hR : validateItems true t with e | rest2 <;> simp only [hR] at h
    · simp at h
    simp only [Except.ok.injEq] at h
    subst h
    intro p hp
    rcases List.mem_cons.mp hp with hp | hp
    · subst hp
      exact validateItem_true_value hI
    · exact ih hR p hp

theorem validateCategoryVal_true_value {v : EVal} {pd : List (String × EVal)}
    (h : validateCategoryVal v true = .ok (.dict pd)) :
    ∀ p ∈ pd, ∃ d, p.2 = EVal.dict d ∧ (alookup "value" d).isSome := by
  rcases v with s | l | _ | d
  · simp [validateCategoryVal] at h
  · simp [validateCategoryVal] at h
  · simp [validateCategoryVal] at h
  simp only [validateCategoryVal] at h
  rcases hI : validateItems true d with e | d2 <;> simp only [hI] at h
  · simp at h
  simp only [Except.ok.injEq, EVal.dict.injEq] at h
  subst h
  exact validateItems_true_value hI

/-- Merging a category value with an identical stored copy is the
identity: every item takes its own `value`, nothing is left over in the
stored copy and no deprecation audit fires. -/
theorem mergeLoop_self (catName : Option String) :
    ∀ l : List (String × EVal),
      (∀ p ∈ l, ∃ d, p.2 = EVal.dict d ∧ (alookup "value" d).isSome) →
      (∀ p ∈ l, isDeprecatedTrue p.2 = false) →
      mergeLoop catName l l = .ok (l, [], [], []) := by
  intro l
  induction l with
  | nil => intro _ _; rfl
  | cons p t ih =>
    intro hd hdep
    rcases p with ⟨n, iv⟩
    obtain ⟨d, hivd, hvv⟩ := hd (n, iv) (List.mem_cons_self _ _)
    obtain ⟨vv, hvv2⟩ := Option.isSome_iff_exists.mp hvv
    have hms : mergeStep n iv ((n, iv) :: t) = .ok (iv, t) := by
      subst hivd
      unfold mergeStep
      have hl : alookup n ((n, EVal.dict d) :: t) = some (EVal.dict d) := by simp [alookup]
      simp only [hl]
      rw [hvv2]
      simp only [Option.getD_some]
      rw [aset_self_of_alookup hvv2]
      simp [aremove]
    simp only [mergeLoop, hms]
    rw [hdep (n, iv) (List.mem_cons_self _ _)]
    simp only [Bool.false_eq_true, if_false]
    rw [ih (fun q hq => hd q (List.mem_cons_of_mem _ hq))
      (fun q hq => hdep q (List.mem_cons_of_mem _ hq))]

theorem mergeCategoryVals_self {pd : List (String × EVal)} (keep : Bool)
    (catName : Option String)
    (hd : ∀ p ∈ pd, ∃ d, p.2 = EVal.dict d ∧ (alookup "value" d).isSome)
    (hdep : ∀ p ∈ pd, isDeprecatedTrue p.2 = false) :
    mergeCategoryVals (.dict pd) (.dict pd) keep catName = .ok (.dict pd, []) := by
  simp only [mergeCategoryVals, mergeLoop_self catName pd hd hdep]
  rcases keep with _ | _ <;> rfl

theorem find?_map_append_none {l : List ConfigRow} {k : String} (row : ConfigRow)
    (h : l.find? (fun r => r.key == k) = none) (hrk : (row.key == k) = true) :
    ((l ++ [row]).map (fun r => (r.key, r.description, r.displayName))).find?
      (fun c => c.1 == k) = some (row.key, row.description, row.displayName) := by
  induction l with
  | nil => simp [List.find?, hrk]
  | cons r t ih =>
    rw [List.find?] at h
    rcases hr : (r.key == k) with _ | _
    · rw [hr] at h
      simp only [List.cons_append, List.map_cons, List.find?, hr]
      exact ih h
    · rw [hr] at h
      simp at h

theorem readCategoryVal_insert {stg : Storage} {k : String} {row : ConfigRow}
    (h : readCategoryVal stg k = none) (hrk : (row.key == k) = true) :
    readCategoryVal (storageInsertRow stg row) k = some row.value := by
  unfold readCategoryVal at h ⊢
  have hf : stg.configuration.find? (fun r => r.key == k) = none := by
    rcases hq : stg.configuration.find? (fun r => r.key == k) with _ | r
    · exact hq
    · rw [hq] at h; simp at h
  unfold storageInsertRow
  simp only []
  have : (stg.configuration ++ [row]).find? (fun r => r.key == k) = some row := by
    rw [List.find?_append, hf]
    simp [List.find?, hrk]
  rw [this]

theorem readCategoryVal_none_find {stg : Storage} {k : String}
    (h : readCategoryVal stg k = none) :
    stg.configuration.find? (fun r => r.key == k) = none := by
  unfold readCategoryVal at h
  rcases hq : stg.configuration.find? (fun r => r.key == k) with _ | r
  · exact hq
  · rw [hq] at h; simp at h

/-- C7: when the prepared category value carries no deprecated item,
re-running `create_category` with the same arguments leaves the manager
state untouched and performs no storage write, no audit and no callback:
the second call returns with an empty effect list, while the first call
inserted the row and emitted the `CONAD` audit. -/
theorem C7_idempotent_recreate
    (k : String) (v : EVal) (desc : String) (keep : Bool) (st : CMState)
    (pd : List (String × EVal))
    (hval : validateCategoryVal v true = .ok (.dict pd))
    (hnodep : ∀ p ∈ pd, isDeprecatedTrue p.2 = false)
    (habsent : readCategoryVal st.storage k = none)
    (hcache : st.cache.length < MAX_CACHE_SIZE) :
    ∃ st1 effs1,
      createCategory k v desc keep none st = (.ok (), st1, effs1) ∧
      Effect.auditConad k (.dict pd) ∈ effs1 ∧
      createCategory k v desc keep none st1 = (.ok (), st1, []) := by
  have hfilter : pd.filter (fun p => !isDeprecatedTrue p.2) = pd :=
    List.filter_eq_self.mpr (fun p hp => by rw [hnodep p hp]; rfl)
  have hnew : createNewCategory k (.dict pd) desc none st =
      (.ok (), { st with
          storage := storageInsertRow st.storage ⟨k, desc, .dict pd, k⟩,
          cache := aset k ⟨some st.clock, .dict pd, k, none⟩ st.cache,
          clock := st.clock + 1 },
        [Effect.auditConad k (.dict pd), Effect.insertConfig k desc (.dict pd) k]) := by
    unfold createNewCategory
    simp only [hfilter]
    unfold cacheUpdate
    rw [if_neg (fun hc => not_le.mpr hcache hc.2)]
    rfl
  refine ⟨{ st with
      storage := storageInsertRow st.storage ⟨k, desc, .dict pd, k⟩,
      cache := aset k ⟨some st.clock, .dict pd, k, none⟩ st.cache,
      clock := st.clock + 1 },
    [Effect.auditConad k (.dict pd), Effect.insertConfig k desc (.dict pd) k,
     Effect.runCallbacks k], ?_, by simp, ?_⟩
  · simp only [createCategory, hval, habsent, hnew]
    rfl
  · have hread2 : readCategoryVal (storageInsertRow st.storage ⟨k, desc, .dict pd, k⟩) k =
        some (.dict pd) :=
      readCategoryVal_insert habsent (by simp)
    have hval2 : validateCategoryVal (.dict pd) false = .ok (.dict pd) :=
      validateCategoryVal_false_of_true hval
    have hfind : ((readAllCategoryNames
          (storageInsertRow st.storage ⟨k, desc, .dict pd, k⟩)).find?
          (fun c => c.1 == k)) = some (k, desc, k) := by
      have h2 := find?_map_append_none (⟨k, desc, .dict pd, k⟩ : ConfigRow)
        (readCategoryVal_none_find habsent) (by simp)
      exact h2
    have hmself := mergeCategoryVals_self keep (some k)
      (validateCategoryVal_true_value hval) hnodep
    have hjson : jsonSortedEq (.dict pd) (.dict pd) = true := jsonSortedEq_refl _
    simp only [createCategory, hval, hread2, hval2, hfind, hmself, hjson,
      Option.getD_none, Option.getD_some, reduceIte]
    rfl

theorem C7_witness :
    ∃ st1 effs1,
      createCategory "PURGE" purgeVal "Purge" false none emptyState =
        (.ok (), st1, effs1) ∧
      Effect.auditConad "PURGE" (.dict [("age", .dict [("description", .str "d"),
        ("type", .str "integer"), ("default", .str "72"),
        ("value", .str "72")])]) ∈ effs1 ∧
      createCategory "PURGE" purgeVal "Purge" false none st1 = (.ok (), st1, []) :=
  C7_idempotent_recreate "PURGE" purgeVal "Purge" false emptyState
    [("age", .dict [("description", .str "d"), ("type", .str "integer"),
      ("default", .str "72"), ("value", .str "72")])]
    (by rfl) (by intro p hp; rcases List.mem_singleton.mp hp; rfl) (by rfl) (by decide)

/-! ### Recursive delete: what the reserved-category guard protects -/

theorem find?_filter_stable {α : Type} (p q : α → Bool) :
    ∀ {l : List α}, (∀ r ∈ l, p r = true → q r = true) →
      (l.filter q).find? p = l.find? p := by
  intro l
  induction l with
  | nil => intro _; rfl
  | cons r t ih =>
    intro h
    rcases hp : p r with _ | _
    · rcases hq : q r with _ | _
      · simp only [List.filter, hq]
        rw [ih (fun r2 h2 hp2 => h r2 (List.mem_cons_of_mem _ h2) hp2)]
        simp [List.find?, hp]
      · simp only [List.filter, hq]
        simp only [List.find?, hp]
        exact ih (fun r2 h2 hp2 => h r2 (List.mem_cons_of_mem _ h2) hp2)
    · have hq := h r (List.mem_cons_self _ _) hp
      simp [List.filter, hq, List.find?, hp]

theorem childrenOf_sublist {stg stg2 : Storage} (c : String)
    (h : List.Sublist stg2.categoryChildren stg.categoryChildren) :
    List.Sublist (childrenOf stg2 c) (childrenOf stg c) := by
  unfold childrenOf
  exact (h.filter _).map _

theorem fetchChildren_elim {f : String → Except String (List String)} :
    ∀ {cs ds : List String}, fetchChildren f cs = .ok ds →
      ∀ c ∈ cs, c ∈ ds ∧ ∃ dsc, f c = .ok dsc ∧ dsc ⊆ ds := by
  intro cs
  induction cs with
  | nil => intro ds _ c hc; simp at hc
  | cons c0 rest ih =>
    intro ds h c hc
    simp only [fetchChildren] at h
    rcases h1 : f c0 with e | d1 <;> simp only [h1] at h
    · simp at h
    rcases h2 : fetchChildren f rest with e | rest2 <;> simp only [h2] at h
    · simp at h
    simp only [Except.ok.injEq] at h
    subst h
    rcases List.mem_cons.mp hc with hc | hc
    · subst hc
      refine ⟨List.mem_cons_self _ _, d1, h1, fun x hx => ?_⟩
      simp [hx]
    · obtain ⟨hcm, dsc, hf, hsub⟩ := ih h2 c hc
      refine ⟨by simp [hcm], dsc, hf, fun x hx => ?_⟩
      have := hsub hx
      simp [this]

theorem fetchChildren_mono {f g : String → Except String (List String)}
    (hfg : ∀ c ds, f c = .ok ds → ∃ ds2, g c = .ok ds2 ∧ ds2 ⊆ ds) :
    ∀ {cs2 cs : List String}, List.Sublist cs2 cs → ∀ {ds : List String},
      fetchChildren f cs = .ok ds →
      ∃ ds2, fetchChildren g cs2 = .ok ds2 ∧ ds2 ⊆ ds := by
  intro cs2 cs hsub
  induction hsub with
  | slnil =>
    intro ds _
    exact ⟨[], rfl, by simp⟩
  | cons c hsub2 ih =>
    rename_i l1 l2
    intro ds h
    simp only [fetchChildren] at h
    rcases h1 : f c with e | d1 <;> simp only [h1] at h
    · simp at h
    rcases h2 : fetchChildren f l2 with e | rest2 <;> simp only [h2] at h
    · simp at h
    simp only [Except.ok.injEq] at h
    subst h
    obtain ⟨ds2, hg, hsub3⟩ := ih h2
    exact ⟨ds2, hg, fun x hx => by simp [hsub3 hx]⟩
  | cons₂ c hsub2 ih =>
    rename_i l1 l2
    intro ds h
    simp only [fetchChildren] at h
    rcases h1 : f c with e | d1 <;> simp only [h1] at h
    · simp at h
    rcases h2 : fetchChildren f l2 with e | rest2 <;> simp only [h2] at h
    · simp at h
    simp only [Except.ok.injEq] at h
    subst h
    obtain ⟨d2, hg1, hsub1⟩ := hfg c d1 h1
    obtain ⟨ds2, hg2, hsub3⟩ := ih h2
    refine ⟨c :: d2 ++ ds2, ?_, ?_⟩
    · simp only [fetchChildren, hg1, hg2]
    · intro x hx
      rcases List.mem_cons.mp hx with hx | hx
      · simp [hx]
      rcases List.mem_append.mp hx with hx | hx
      · simp [hsub1 hx]
      · simp [hsub3 hx]

theorem fetch_mono {stg stg2 : Storage}
    (hsub : List.Sublist stg2.categoryChildren stg.categoryChildren) :
    ∀ (fuel : Nat) (c : String) {ds : List String},
      fetchDescendents stg fuel c = .ok ds →
      ∃ ds2, fetchDescendents stg2 fuel c = .ok ds2 ∧ ds2 ⊆ ds := by
  intro fuel
  induction fuel with
  | zero => intro c ds h; simp [fetchDescendents] at h
  | succ f ih =>
    intro c ds h
    simp only [fetchDescendents] at h ⊢
    exact fetchChildren_mono (fun c2 ds3 h3 => ih c2 h3) (childrenOf_sublist c hsub) h

theorem deleteList_edges
    (f : String → CMState → Except String Unit × CMState × List Effect)
    (hf : ∀ c s, List.Sublist ((f c s).2.1).storage.categoryChildren s.storage.categoryChildren) :
    ∀ (cs : List String) (s : CMState),
      List.Sublist ((deleteList f cs s).2.1).storage.categoryChildren
        s.storage.categoryChildren := by
  intro cs
  induction cs with
  | nil => intro s; exact List.Sublist.refl _
  | cons c rest ih =>
    intro s
    rcases hd : f c s with ⟨r1, s2, effs⟩
    have h1 : List.Sublist s2.storage.categoryChildren s.storage.categoryChildren := by
      have h2 := hf c s
      rw [hd] at h2
      exact h2
    rcases r1 with e | u
    · simp only [deleteList, hd]
      exact h1
    · rcases u
      simp only [deleteList, hd]
      rcases h3 : deleteList f rest s2 with ⟨r2, s3, effs2⟩
      have h4 := ih s2
      rw [h3] at h4
      exact h4.trans h1

theorem deleteRecursively_edges :
    ∀ (fuel : Nat) (cat : String) (s : CMState),
      List.Sublist ((deleteRecursively fuel cat s).2.1).storage.categoryChildren
        s.storage.categoryChildren := by
  intro fuel
  induction fuel with
  | zero => intro cat s; exact List.Sublist.refl _
  | succ f ihf =>
    intro cat s
    rcases hdl : deleteList (deleteRecursively f) (childrenOf s.storage cat) s
      with ⟨r, s2, effs⟩
    have h1 : List.Sublist s2.storage.categoryChildren s.storage.categoryChildren := by
      have h2 := deleteList_edges _ (fun c s3 => ihf c s3) (childrenOf s.storage cat) s
      rw [hdl] at h2
      exact h2
    rcases r with e | u
    · simp only [deleteRecursively, hdl]
      exact h1
    · rcases u
      simp only [deleteRecursively, hdl]
      exact (List.filter_sublist _).trans h1

theorem deleteRecursively_keeps :
    ∀ (fuel : Nat) (cat : String) (st : CMState) (ds : List String) (k : String),
      fetchDescendents st.storage fuel cat = .ok ds →
      k ≠ cat → k ∉ ds →
      ((deleteRecursively fuel cat st).2.1).storage.configuration.find?
          (fun r => r.key == k) =
        st.storage.configuration.find? (fun r => r.key == k) := by
  intro fuel
  induction fuel with
  | zero =>
    intro cat st ds k h _ _
    simp [fetchDescendents] at h
  | succ f ihf =>
    intro cat st ds k hfetch hkcat hkds
    simp only [fetchDescendents] at hfetch
    have helim := fetchChildren_elim hfetch
    have hlist : ∀ (cs : List String) (s : CMState),
        List.Sublist s.storage.categoryChildren st.storage.categoryChildren →
        (∀ c ∈ cs, c ∈ ds ∧ ∃ dsc, fetchDescendents st.storage f c = .ok dsc ∧ dsc ⊆ ds) →
        ((deleteList (deleteRecursively f) cs s).2.1).storage.configuration.find?
            (fun r => r.key == k) =
          s.storage.configuration.find? (fun r => r.key == k) := by
      intro cs
      induction cs with
      | nil => intro s _ _; rfl
      | cons c rest ih2 =>
        intro s hsub hcs
        obtain ⟨hcds, dsc, hfc, hsubds⟩ := hcs c (List.mem_cons_self _ _)
        obtain ⟨ds2, hfc2, hds2⟩ := fetch_mono hsub f c hfc
        have hk1 : k ≠ c := fun he => hkds (he ▸ hcds)
        have hk2 : k ∉ ds2 := fun hin => hkds (hsubds (hds2 hin))
        have hpres := ihf c s ds2 k hfc2 hk1 hk2
        rcases hdel : deleteRecursively f c s with ⟨r1, s2, effs1⟩
        rw [hdel] at hpres
        rcases r1 with e | u
        · simp only [deleteList, hdel]
          exact hpres
        · rcases u
          simp only [deleteList, hdel]
          rcases h3 : deleteList (deleteRecursively f) rest s2 with ⟨r2, s3, effs2⟩
          have hsub2 : List.Sublist s2.storage.categoryChildren
              st.storage.categoryChildren := by
            have h4 := deleteRecursively_edges f c s
            rw [hdel] at h4
            exact h4.trans hsub
          have h5 := ih2 s2 hsub2 (fun c2 hc2 => hcs c2 (List.mem_cons_of_mem _ hc2))
          rw [h3] at h5
          simp only []
          rw [h5, hpres]
    rcases hdl : deleteList (deleteRecursively f) (childrenOf st.storage cat) st
      with ⟨r, st2, effs⟩
    have hkeep := hlist (childrenOf st.storage cat) st (List.Sublist.refl _) helim
    rw [hdl] at hkeep
    rcases r with e | u
    · simp only [deleteRecursively, hdl]
      exact hkeep
    · rcases u
      simp only [deleteRecursively, hdl]
      rw [find?_filter_stable _ _ (fun r _ hp => by
        have hrk : r.key = k := by simpa using hp
        simp [hrk, hkcat])]
      exact hkeep

/-- C1: the reserved-category guard of
`delete_category_and_children_recursively` protects exactly the strict DFS
descendant set: a run whose descendants contain a reserved category raises
`ValueError` with the manager state untouched and no effect issued, and a
run that proceeds never removes the configuration row of a reserved
category other than the deleted root itself. -/
theorem C1_reserved_guard_descendants
    (name : String) (fuel : Nat) (st : CMState) (cv : EVal) (ds : List String)
    (hexists : readCategoryVal st.storage name = some cv)
    (hfetch : fetchDescendents st.storage fuel name = .ok ds) :
    ((∃ r ∈ RESERVED_CATG, ds.contains r = true) →
      deleteCategoryAndChildrenRecursively name fuel st =
        (.error "ValueError: Reserved category found in descendents", st, [])) ∧
    (∀ k ∈ RESERVED_CATG, k ≠ name →
      readCategoryVal
        ((deleteCategoryAndChildrenRecursively name fuel st).2.1).storage k =
        readCategoryVal st.storage k) := by
  constructor
  · intro hex
    have hfind : (RESERVED_CATG.find? (fun catg => ds.contains catg)).isSome :=
      List.find?_isSome.mpr hex
    obtain ⟨r2, hr2⟩ := Option.isSome_iff_exists.mp hfind
    simp only [deleteCategoryAndChildrenRecursively, hexists, hfetch, hr2]
  · intro k hkres hkname
    rcases hguard : RESERVED_CATG.find? (fun catg => ds.contains catg) with _ | r
    · have hknotds : k ∉ ds := by
        have h2 := List.find?_eq_none.mp hguard k hkres
        simpa using h2
      simp only [deleteCategoryAndChildrenRecursively, hexists, hfetch, hguard]
      unfold readCategoryVal
      rw [deleteRecursively_keeps fuel name st ds k hfetch hkname hknotds]
    · simp only [deleteCategoryAndChildrenRecursively, hexists, hfetch, hguard]

theorem C1_witness :
    ((∃ r ∈ RESERVED_CATG, (["B"] : List String).contains r = true) →
      deleteCategoryAndChildrenRecursively "A" 3 treeState =
        (.error "ValueError: Reserved category found in descendents", treeState, [])) ∧
    (∀ k ∈ RESERVED_CATG, k ≠ "A" →
      readCategoryVal
        ((deleteCategoryAndChildrenRecursively "A" 3 treeState).2.1).storage k =
        readCategoryVal treeState.storage k) :=
  C1_reserved_guard_descendants "A" 3 treeState (.dict []) ["B"] (by rfl) (by rfl)

end FogLAMP
